import Mathlib

/-!
Verification development for a terminal chess engine (chess.py, helper.py).

The Python source is shallowly embedded: pieces and the board model become
Lean structures, in-place object mutation becomes explicit state passing,
and Python exceptions (IndexError, AttributeError, ValueError) are modelled
with Option results or explicit crash flags.  Python object identity of a
piece is represented by an inert `pid` field assigned at creation; mutating
a piece object is modelled by updating the grid slot that holds it, which
agrees with Python on alias-free heaps (each object referenced from at most
one grid slot, as maintained by the program).
-/

namespace Chess

set_option maxRecDepth 100000

/-- The six piece names used by the program.  The Python source stores the
name as a string, but the set of strings ever constructed is exactly these
six literals, so a closed inductive type is a faithful embedding. -/
inductive Name where
  | pawn | knight | bishop | rock | queen | king
deriving DecidableEq, Repr

/-- Embedding of class Piece.  The display avatar is dropped (pure
rendering).  The derived attributes `pawn_move_modifier` and `movement`
are recomputed by `update_stats` at every point where `name` or `player`
changes, so they are modelled as functions of `name` and `player` below
rather than stored fields.  `pid` models Python object identity. -/
structure Piece where
  name : Name
  player : Int
  x : Int
  y : Int
  pid : Nat
deriving DecidableEq, Repr

/-- Embedding of class Model: the 64-slot grid (`chess_map`) and the move
history (`moves`), whose entries record the captured piece (or none), the
source coordinate and the destination coordinate. -/
structure Model where
  chess_map : List (Option Piece)
  moves : List (Option Piece × (Int × Int) × (Int × Int))
deriving DecidableEq, Repr

/-- helper._xy_convert: convert an (x, y) coordinate to a linear index. -/
def _xy_convert (x y : Int) : Int := (x - 1) * 8 + (y - 1)

/-- Resolve a raw Python list index against a list of length `n`:
indices in [0, n) address directly, indices in [-n, 0) wrap from the end,
anything else raises IndexError (modelled as `none`). -/
def pyIdx (n : Nat) (x y : Int) : Option Nat :=
  let i := _xy_convert x y
  if 0 ≤ i ∧ i < (n : Int) then some i.toNat
  else if 0 ≤ i + (n : Int) ∧ i + (n : Int) < (n : Int) then some (i + (n : Int)).toNat
  else none

/-- Model.get_point (through the @_xy_to_index decorator): read the grid
slot addressed by (x, y) with Python list-index semantics.  On the
IndexError region (no resolvable slot) this total embedding returns `none`;
`get_point_raises` states exactly where Python raises instead. -/
def get_point (m : Model) (x y : Int) : Option Piece :=
  match pyIdx m.chess_map.length x y with
  | some k => m.chess_map.getD k none
  | none => none

/-- Whether Python raises IndexError on this grid access: true exactly when
the converted index resolves to no slot (neither directly nor by Python
negative-index wrap). -/
def get_point_raises (m : Model) (x y : Int) : Bool :=
  (pyIdx m.chess_map.length x y).isNone

/-- Model.set_point: overwrite the grid slot addressed by (x, y), Python
list-index semantics.  On the IndexError region the embedding is the
identity (Python raises there; no theorem relies on that region). -/
def set_point (m : Model) (thing : Option Piece) (x y : Int) : Model :=
  match pyIdx m.chess_map.length x y with
  | some k => { m with chess_map := m.chess_map.set k thing }
  | none => m

/-- Piece.set_pos performed on the piece object held in the grid slot
addressed by (x, y): its stored coordinate is rewritten to (nx, ny).
A no-op on an empty or unresolvable slot. -/
def set_coords (m : Model) (x y nx ny : Int) : Model :=
  match pyIdx m.chess_map.length x y with
  | some k =>
      { m with chess_map :=
          m.chess_map.set k ((m.chess_map.getD k none).map
            (fun p => { p with x := nx, y := ny })) }
  | none => m

/-- Model.is_inside: bounds check against [1,8] x [1,8]. -/
def is_inside (x y : Int) : Bool :=
  decide (1 ≤ x ∧ x ≤ 8) && decide (1 ≤ y ∧ y ≤ 8)

/-- Model.get_pieces: all occupied slots of indices 0..63 in slot order. -/
def get_pieces (m : Model) : List Piece :=
  (List.range 64).filterMap (fun i => m.chess_map.getD i none)

/-- Piece._rotate: a quarter of the moves extended by the three other
rotations.  Python builds list(set(...)); the unspecified set order is
modelled as first-occurrence deduplication of the concatenation, which has
the same membership. -/
def _rotate (moves : List (Int × Int)) : List (Int × Int) :=
  (moves ++ moves.map (fun (q : Int × Int) => (q.1 * -1, q.2 * -1))
         ++ moves.map (fun (q : Int × Int) => (q.2 * -1, q.1))
         ++ moves.map (fun (q : Int × Int) => (q.2, q.1 * -1))).dedup

/-- Piece.update_stats, pawn branch: -1 by default, +1 for player 0. -/
def pawn_move_modifier (player : Int) : Int := if player == 0 then 1 else -1

/-- The rook movement table: _rotate(zip([0]*8, range(1,9))). -/
def rockMovement : List (Int × Int) :=
  _rotate ((List.range 8).map (fun (k : Nat) => ((0 : Int), (k : Int) + 1)))

/-- The bishop movement table: _rotate(zip(range(1,9), range(1,9))). -/
def bishopMovement : List (Int × Int) :=
  _rotate ((List.range 8).map (fun (k : Nat) => ((k : Int) + 1, (k : Int) + 1)))

/-- Piece.update_stats: the movement pattern as a function of name and
player.  The queen's pattern is built from fake rook and bishop pieces,
hence the concatenation of the two tables. -/
def movement (n : Name) (player : Int) : List (Int × Int) :=
  match n with
  | .pawn =>
      [(0, pawn_move_modifier player), (0, 2 * pawn_move_modifier player),
       (-1, pawn_move_modifier player), (1, pawn_move_modifier player)]
  | .bishop => bishopMovement
  | .knight => _rotate [(2, 1), (1, 2)]
  | .rock => rockMovement
  | .queen => rockMovement ++ bishopMovement
  | .king => _rotate [(1, 1), (1, 0)]

/-- range(a, b) over integers. -/
def intRange (a b : Int) : List Int :=
  (List.range (b - a).toNat).map (fun (k : Nat) => a + (k : Int))

/-- Python list.remove: delete the first occurrence, ValueError (none) if
the value is absent. -/
def pyRemove (l : List (Int × Int)) (v : Int × Int) : Option (List (Int × Int)) :=
  if v ∈ l then some (l.erase v) else none

/-- The rook branch's nested comprehension: every (ix, iy) with ix in
range(min(x,px), max(x,px)+1) and iy in range(min(y,py), max(y,py)+1). -/
def rookIntervening (px py x y : Int) : List (Int × Int) :=
  (intRange (min x px) (max x px + 1)).flatMap
    (fun ix => (intRange (min y py) (max y py + 1)).map (fun iy => (ix, iy)))

/-- The tail of is_legal_move shared by all fall-through branches: illegal
if any intervening square is occupied, else legal iff the final square is
empty or holds an enemy piece. -/
def blocked_or_final (m : Model) (p : Piece) (x y : Int)
    (intervening : List (Int × Int)) : Bool :=
  if intervening.any (fun q => (get_point m q.1 q.2).isSome) then false
  else
    match get_point m x y with
    | none => true
    | some q => q.player != p.player

/-- Piece.is_legal_move, rook branch ("rock").  `none` models the
ValueError that list.remove raises when an endpoint is missing from the
intervening list (which happens exactly when destination = source). -/
def rock_legal (m : Model) (p : Piece) (x y : Int) : Option Bool :=
  if x ≠ p.x ∧ y ≠ p.y then some false
  else
    match pyRemove (rookIntervening p.x p.y x y) (x, y) with
    | none => none
    | some iv1 =>
      match pyRemove iv1 (p.x, p.y) with
      | none => none
      | some iv => some (blocked_or_final m p x y iv)

/-- The bishop branch's locals step_x and step_y and its comprehension
list: the diagonal squares from the source towards the destination. -/
def bishopIntervening (px py x y : Int) : List (Int × Int) :=
  let step_x : Int := if px < x then 1 else -1
  let step_y : Int := if py < y then 1 else -1
  (List.range ((px - x).natAbs + 1)).map
    (fun (i : Nat) => (px + (i : Int) * step_x, py + (i : Int) * step_y))

/-- Piece.is_legal_move, bishop branch. -/
def bishop_legal (m : Model) (p : Piece) (x y : Int) : Option Bool :=
  if (x - p.x).natAbs ≠ (y - p.y).natAbs then some false
  else
    match pyRemove (bishopIntervening p.x p.y x y) (x, y) with
    | none => none
    | some iv1 =>
      match pyRemove iv1 (p.x, p.y) with
      | none => none
      | some iv => some (blocked_or_final m p x y iv)

/-- Piece.is_legal_move, pawn branch: every sub-case returns directly,
never reaching the shared blocking/final-square code. -/
def pawn_legal (m : Model) (p : Piece) (x y : Int) : Bool :=
  let md := pawn_move_modifier p.player
  if x = p.x ∧ y = p.y + 1 * md then (get_point m x y).isNone
  else if x = p.x ∧ (p.y = 2 ∨ p.y = 7) ∧ y = p.y + 2 * md then
    (get_point m x (p.y + 1 * md)).isNone && (get_point m x y).isNone
  else if (x - p.x).natAbs = 1 ∧ y = p.y + 1 * md then
    match get_point m x y with
    | none => false
    | some q => q.player != p.player
  else false

/-- Piece.is_legal_move.  `none` models a raised ValueError; the queen
tests a fake rook then (short-circuit `or`) a fake bishop from the same
origin. -/
def is_legal_move (m : Model) (p : Piece) (x y : Int) : Option Bool :=
  match p.name with
  | .king =>
      if 1 < (x - p.x).natAbs ∨ 1 < (y - p.y).natAbs then some false
      else some (blocked_or_final m p x y [])
  | .queen =>
      match rock_legal m p x y with
      | none => none
      | some true => some true
      | some false => bishop_legal m p x y
  | .rock => rock_legal m p x y
  | .bishop => bishop_legal m p x y
  | .knight =>
      if ((x - p.x).natAbs = 2 ∧ (y - p.y).natAbs = 1) ∨
         ((x - p.x).natAbs = 1 ∧ (y - p.y).natAbs = 2) then
        some (blocked_or_final m p x y [])
      else some false
  | .pawn => some (pawn_legal m p x y)

/-- The body of Piece.legal_moves: keep each candidate that is inside the
board and passes is_legal_move; a raised ValueError (none) propagates. -/
def legal_moves_go (m : Model) (p : Piece) : List (Int × Int) → Option (List (Int × Int))
  | [] => some []
  | c :: cs =>
    if is_inside c.1 c.2 then
      match is_legal_move m p c.1 c.2 with
      | none => none
      | some b =>
        match legal_moves_go m p cs with
        | none => none
        | some rest => some (if b then c :: rest else rest)
    else legal_moves_go m p cs

/-- Piece.legal_moves: all movement offsets applied to the current
position, filtered to in-board squares passing is_legal_move. -/
def legal_moves (m : Model) (p : Piece) : Option (List (Int × Int)) :=
  legal_moves_go m p ((movement p.name p.player).map (fun d => (d.1 + p.x, d.2 + p.y)))

/-- Python any() over a generator of is_legal_move results: short-circuits
on the first true, propagates a raised error (none) otherwise. -/
def anyLegal (m : Model) (kx ky : Int) : List Piece → Option Bool
  | [] => some false
  | p :: rest =>
    match is_legal_move m p kx ky with
    | none => none
    | some true => some true
    | some false => anyLegal m kx ky rest

/-- Model.is_in_check: false when the opposing king is absent, else true
iff any piece of `test_for` has a legal move onto that king's square. -/
def is_in_check (m : Model) (test_for : Int) : Option Bool :=
  let pieces := get_pieces m
  let checker_pieces := pieces.filter (fun q => q.player == test_for)
  let other_king := pieces.filter (fun q => q.name == Name.king && q.player != test_for)
  match other_king with
  | [] => some false
  | k :: _ => anyLegal m k.x k.y checker_pieces

/-- Model.move_unit: append the history entry (destination occupant,
source, destination), write the moved reference to the destination slot,
clear the source slot, then set_pos the moved object.  When the source is
empty, the final unit.set_pos raises AttributeError: the Bool component is
the crash flag, and the returned state is the one at the point of failure
(history already appended, both slots already written). -/
def move_unit (m : Model) (fp tp : Int × Int) : Model × Bool :=
  let unit := get_point m fp.1 fp.2
  let m1 := { m with moves := m.moves ++ [(get_point m tp.1 tp.2, fp, tp)] }
  let m2 := set_point m1 unit tp.1 tp.2
  let m3 := set_point m2 none fp.1 fp.2
  match unit with
  | none => (m3, true)
  | some _ => (set_coords m3 tp.1 tp.2 tp.1 tp.2, false)

/-- Model.undo_move: pop the last history entry, put the captured piece
back on the destination, the mover back on the source, and restore both
stored coordinates.  Crash flag true models the IndexError of pop on an
empty history (state unchanged) and the AttributeError of
moved_unit.set_pos when the destination slot was empty (state as mutated
up to that point).  The set_pos on the captured piece acts on the
destination slot only when the two writes did not alias (otherwise the
object is no longer referenced from the grid). -/
def undo_move (m : Model) : Model × Bool :=
  match m.moves.getLast? with
  | none => (m, true)
  | some (unit, fp, tp) =>
    let m0 := { m with moves := m.moves.dropLast }
    let moved_unit := get_point m0 tp.1 tp.2
    let m1 := set_point m0 unit tp.1 tp.2
    let m2 := set_point m1 moved_unit fp.1 fp.2
    let m3 :=
      if unit.isSome ∧
         pyIdx m2.chess_map.length fp.1 fp.2 ≠ pyIdx m2.chess_map.length tp.1 tp.2
      then set_coords m2 tp.1 tp.2 tp.1 tp.2 else m2
    match moved_unit with
    | none => (m3, true)
    | some _ => (set_coords m3 fp.1 fp.2 fp.1 fp.2, false)

/-- Model.pawn_transform: the first pawn (in get_pieces slot order) at rank
1 or 8 has its name changed in place to queen (the movement pattern being
derived from the name, its recomputation by update_stats is automatic);
the scan returns after one transformation. -/
def pawn_transform (m : Model) : Model :=
  match (List.range 64).find? (fun i =>
      match m.chess_map.getD i none with
      | some p => p.name == Name.pawn && (p.y == 1 || p.y == 8)
      | none => false) with
  | none => m
  | some i =>
      { m with chess_map :=
          m.chess_map.set i ((m.chess_map.getD i none).map
            (fun p => { p with name := Name.queen })) }

/-- The innermost loop of Model.is_in_checkmate: for each candidate move
of the defending piece at `src`, speculatively move_unit, test
is_in_check(last_mover), undo_move; on an escaping move break with the
second component true.  The first component is the model state when the
loop exits; `none` propagates any raised exception. -/
def trial_moves (m : Model) (lm : Int) (src : Int × Int) :
    List (Int × Int) → Option (Model × Bool)
  | [] => some (m, false)
  | mv :: rest =>
    match move_unit m src mv with
    | (_, true) => none
    | (m1, false) =>
      match is_in_check m1 lm with
      | none => none
      | some inchk =>
        match undo_move m1 with
        | (_, true) => none
        | (m2, false) =>
          if inchk then trial_moves m2 lm src rest
          else some (m2, true)

/-- The middle loop of Model.is_in_checkmate over the defending pieces:
run the trial loop on each piece's legal moves, breaking as soon as one
escaping move is found (second component true). -/
def defender_loop (m : Model) (lm : Int) : List Piece → Option (Model × Bool)
  | [] => some (m, false)
  | p2 :: rest =>
    match legal_moves m p2 with
    | none => none
    | some mvs =>
      match trial_moves m lm (p2.x, p2.y) mvs with
      | none => none
      | some (m1, escaped) =>
        if escaped then some (m1, true) else defender_loop m1 lm rest

/-- The outer loop of Model.is_in_checkmate over the last mover's pieces:
each piece with a legal move onto the opposing king's square sets the
checkmate flag to true and runs the defender search, which resets it to
false if an escape is found; the outer loop always continues to the next
piece.  Coordinates of the captured piece objects are read as their values
at loop entry, which agrees with the live objects because every trial is
rolled back (see the round-trip lemmas). -/
def checker_loop (m : Model) (lm kx ky : Int) (others : List Piece)
    (flag : Bool) : List Piece → Option (Model × Bool)
  | [] => some (m, flag)
  | p :: rest =>
    match is_legal_move m p kx ky with
    | none => none
    | some false => checker_loop m lm kx ky others flag rest
    | some true =>
      match defender_loop m lm others with
      | none => none
      | some (m1, escaped) =>
        checker_loop m1 lm kx ky others (!escaped) rest

/-- Model.is_in_checkmate: false on an empty history; the last mover is
the player of the piece on the last move's destination (AttributeError,
modelled none, if that slot is empty); false when the opposing king is
absent; otherwise the nested simulate-and-rollback search.  The pair
returned is (final model state, checkmate flag). -/
def is_in_checkmate (m : Model) : Option (Model × Bool) :=
  match m.moves.getLast? with
  | none => some (m, false)
  | some (_, _, to_pos) =>
    match get_point m to_pos.1 to_pos.2 with
    | none => none
    | some mover =>
      let lm := mover.player
      let pieces := get_pieces m
      let other_pieces := pieces.filter (fun q => q.player != lm)
      let checker_pieces := pieces.filter (fun q => q.player == lm)
      let other_king := pieces.filter (fun q => q.name == Name.king && q.player != lm)
      match other_king with
      | [] => some (m, false)
      | k :: _ => checker_loop m lm k.x k.y other_pieces false checker_pieces

/-- Model.game_not_over: the game continues while exactly two kings remain
and the position is not checkmate (short-circuit and, so the checkmate
search only runs with both kings present). -/
def game_not_over (m : Model) : Option Bool :=
  if ((List.range 64).countP (fun i =>
        match m.chess_map.getD i none with
        | some p => p.name == Name.king
        | none => false)) = 2 then
    match is_in_checkmate m with
    | none => none
    | some (_, b) => some (!b)
  else some false

/-- The empty 64-slot board with no history (Model.__init__ before
setup_standard_map). -/
def empty_model : Model :=
  { chess_map := List.replicate 64 none, moves := [] }

/-- The white placements of setup_standard_map in creation order; the
position in this list is the created object's pid. -/
def standard_placements : List (Name × Int × Int) :=
  [(.rock, 1, 1), (.rock, 8, 1), (.bishop, 3, 1), (.bishop, 6, 1),
   (.knight, 2, 1), (.knight, 7, 1), (.queen, 4, 1), (.king, 5, 1),
   (.pawn, 1, 2), (.pawn, 2, 2), (.pawn, 3, 2), (.pawn, 4, 2),
   (.pawn, 5, 2), (.pawn, 6, 2), (.pawn, 7, 2), (.pawn, 8, 2)]

/-- Model._mirror_map: each existing piece (in get_pieces order) is
shallow-copied (a fresh object, hence a fresh pid), given the other
player, mirrored to (x, 9 - y) and placed there. -/
def _mirror_map (m : Model) (startPid : Nat) : Model :=
  ((get_pieces m).enum).foldl
    (fun acc iq =>
      let q := iq.2
      let newPlayer : Int := if q.player == 0 then 1 else 0
      set_point acc
        (some { q with player := newPlayer, y := 9 - q.y, pid := startPid + iq.1 })
        q.x (9 - q.y))
    m

/-- Model.setup_standard_map applied to the empty board: place the white
officers and pawns, then mirror them for black. -/
def standard_model : Model :=
  _mirror_map
    ((standard_placements.enum).foldl
      (fun acc e =>
        set_point acc (some { name := e.2.1, player := 0, x := e.2.2.1,
                              y := e.2.2.2, pid := e.1 }) e.2.2.1 e.2.2.2)
      empty_model)
    16

/-- Board well-formedness, the documented invariant of the data model: the
grid has its 64 slots and every piece's stored coordinate is inside the
board and matches the slot holding it. -/
def WFb (m : Model) : Bool :=
  m.chess_map.length == 64 &&
  (List.range 64).all (fun i =>
    match m.chess_map.getD i none with
    | none => true
    | some p => is_inside p.x p.y && (_xy_convert p.x p.y == (i : Int)))

/-- Spec-side notion for claim C4: c lies strictly between a and b
(collinear with both, within their bounding box, equal to neither). -/
def between_strict (a b c : Int × Int) : Bool :=
  decide ((c.1 - a.1) * (b.2 - a.2) = (c.2 - a.2) * (b.1 - a.1)) &&
  decide (min a.1 b.1 ≤ c.1 ∧ c.1 ≤ max a.1 b.1 ∧
          min a.2 b.2 ≤ c.2 ∧ c.2 ≤ max a.2 b.2) &&
  !(decide (c = a)) && !(decide (c = b))

/-- Spec-side notion for claim C2: some piece of the last mover has a
legal move onto the opposing king's square. -/
def existsCheckB (m : Model) (lm kx ky : Int) : Bool :=
  (get_pieces m).any (fun p => p.player == lm && (is_legal_move m p kx ky == some true))

/-- Spec-side notion for claim C2: every legal move of every piece of the
side in check, when speculatively applied, leaves that side in check by
the last mover. -/
def noEscapeB (m : Model) (lm : Int) : Bool :=
  (get_pieces m).all (fun p2 =>
    (p2.player == lm) ||
    ((legal_moves m p2).getD []).all
      (fun mv => is_in_check (move_unit m (p2.x, p2.y) mv).1 lm == some true))

/-- The opposing king list used by the checkmate evaluator. -/
def kingsOf (m : Model) (lm : Int) : List Piece :=
  (get_pieces m).filter (fun q => q.name == Name.king && q.player != lm)

/-- Spec-side offset table for claim C7: the non-zero rank/file offsets of
magnitude 1..n. -/
def line_offsets (n : Nat) : List (Int × Int) :=
  (List.range n).flatMap (fun (k : Nat) =>
    [((k : Int) + 1, (0 : Int)), (-((k : Int) + 1), 0), (0, (k : Int) + 1), (0, -((k : Int) + 1))])

/-- Spec-side offset table for claim C7: the diagonal offsets of magnitude
1..n. -/
def diag_offsets (n : Nat) : List (Int × Int) :=
  (List.range n).flatMap (fun (k : Nat) =>
    [((k : Int) + 1, (k : Int) + 1), (-((k : Int) + 1), -((k : Int) + 1)),
     ((k : Int) + 1, -((k : Int) + 1)), (-((k : Int) + 1), (k : Int) + 1)])

/-- Spec-side offset table for claim C7: the 8 L-shaped knight offsets. -/
def knight_offsets : List (Int × Int) :=
  [(2, 1), (1, 2), (-2, -1), (-1, -2), (-1, 2), (-2, 1), (1, -2), (2, -1)]

/-- Spec-side offset table for claim C7: the 8 unit king offsets. -/
def king_offsets : List (Int × Int) :=
  [(1, 1), (1, 0), (-1, -1), (-1, 0), (-1, 1), (0, 1), (1, -1), (0, -1)]

/-- Spec-side offset table for claim C7: forward one, forward two and the
two diagonal captures, with forward direction md. -/
def pawn_offsets (md : Int) : List (Int × Int) :=
  [(0, md), (0, 2 * md), (-1, md), (1, md)]

/-- Decidable side condition for the checkmate evaluator: the destination
square of the last recorded move is occupied (otherwise reading `.player`
of None raises AttributeError). -/
def last_dest_occupied (m : Model) : Bool :=
  match m.moves.getLast? with
  | none => true
  | some (_, _, tp) => (get_point m tp.1 tp.2).isSome

/-- A small back-rank-mate position: the black king on (1,8) is checked by
the white rook on (8,8) and boxed in by the white king on (1,6); the last
recorded move is the rook's arrival on (8,8). -/
def wmate : Model :=
  { chess_map := (List.range 64).map (fun i =>
      if i = 63 then some { name := Name.rock, player := 0, x := 8, y := 8, pid := 1 }
      else if i = 5 then some { name := Name.king, player := 0, x := 1, y := 6, pid := 0 }
      else if i = 7 then some { name := Name.king, player := 1, x := 1, y := 8, pid := 2 }
      else none),
    moves := [(none, (8, 1), (8, 8))] }

/-- A small promotion position: a player-0 pawn on (3,8) and a rook on
(1,1). -/
def pmod : Model :=
  { chess_map := (List.range 64).map (fun i =>
      if i = 23 then some { name := Name.pawn, player := 0, x := 3, y := 8, pid := 0 }
      else if i = 0 then some { name := Name.rock, player := 0, x := 1, y := 1, pid := 1 }
      else none),
    moves := [] }

/-! ### Coordinate and grid-access lemmas -/

theorem is_inside_iff {x y : Int} :
    is_inside x y = true ↔ (1 ≤ x ∧ x ≤ 8) ∧ 1 ≤ y ∧ y ≤ 8 := by
  simp [is_inside, and_assoc]

theorem convert_bounds {x y : Int} (h : is_inside x y = true) :
    0 ≤ _xy_convert x y ∧ _xy_convert x y < 64 := by
  rw [is_inside_iff] at h
  unfold _xy_convert
  omega

theorem convert_inj {x y x' y' : Int} (h : is_inside x y = true)
    (h' : is_inside x' y' = true) (he : _xy_convert x y = _xy_convert x' y') :
    x = x' ∧ y = y' := by
  rw [is_inside_iff] at h h'
  unfold _xy_convert at he
  omega

theorem pyIdx_inboard {x y : Int} (h : is_inside x y = true) :
    pyIdx 64 x y = some (_xy_convert x y).toNat := by
  obtain ⟨h1, h2⟩ := convert_bounds h
  unfold pyIdx
  rw [if_pos ⟨h1, by exact_mod_cast h2⟩]

theorem convert_toNat_lt {x y : Int} (h : is_inside x y = true) :
    (_xy_convert x y).toNat < 64 := by
  have := convert_bounds h
  omega

theorem convert_toNat_inj {x y x' y' : Int} (h : is_inside x y = true)
    (h' : is_inside x' y' = true)
    (he : (_xy_convert x y).toNat = (_xy_convert x' y').toNat) :
    x = x' ∧ y = y' := by
  have h1 := convert_bounds h
  have h2 := convert_bounds h'
  exact convert_inj h h' (by omega)

theorem get_point_inboard {m : Model} (hl : m.chess_map.length = 64) {x y : Int}
    (h : is_inside x y = true) :
    get_point m x y = m.chess_map.getD (_xy_convert x y).toNat none := by
  unfold get_point
  rw [hl, pyIdx_inboard h]

theorem set_point_inboard {m : Model} (hl : m.chess_map.length = 64)
    {t : Option Piece} {x y : Int} (h : is_inside x y = true) :
    set_point m t x y =
      { m with chess_map := m.chess_map.set (_xy_convert x y).toNat t } := by
  unfold set_point
  rw [hl, pyIdx_inboard h]

theorem set_coords_inboard {m : Model} (hl : m.chess_map.length = 64)
    {x y nx ny : Int} (h : is_inside x y = true) :
    set_coords m x y nx ny =
      { m with chess_map := m.chess_map.set (_xy_convert x y).toNat
                  ((m.chess_map.getD (_xy_convert x y).toNat none).map
                    (fun p => { p with x := nx, y := ny })) } := by
  unfold set_coords
  rw [hl, pyIdx_inboard h]

theorem getD_set_self {l : List (Option Piece)} {k : Nat} (h : k < l.length)
    (v : Option Piece) : (l.set k v).getD k none = v := by
  rw [List.getD_eq_getElem?_getD, List.getElem?_set_eq h]
  rfl

theorem getD_set_ne {l : List (Option Piece)} {k j : Nat} (h : k ≠ j)
    (v : Option Piece) : (l.set k v).getD j none = l.getD j none := by
  rw [List.getD_eq_getElem?_getD, List.getD_eq_getElem?_getD,
      List.getElem?_set_ne h]

theorem set_getD_self {l : List (Option Piece)} {k : Nat} (h : k < l.length) :
    l.set k (l.getD k none) = l := by
  apply List.ext_getElem?
  intro n
  rcases eq_or_ne k n with rfl | hne
  · rw [List.getElem?_set_eq h, List.getD_eq_getElem?_getD,
        List.getElem?_eq_getElem h]
    rfl
  · rw [List.getElem?_set_ne hne]

/-! ### Well-formedness lemmas -/

theorem WFb_length {m : Model} (h : WFb m = true) : m.chess_map.length = 64 := by
  unfold WFb at h
  rw [Bool.and_eq_true] at h
  simpa using h.1

theorem WFb_slot {m : Model} (h : WFb m = true) {i : Nat} (hi : i < 64) {p : Piece}
    (hp : m.chess_map.getD i none = some p) :
    is_inside p.x p.y = true ∧ _xy_convert p.x p.y = (i : Int) := by
  unfold WFb at h
  rw [Bool.and_eq_true] at h
  have := List.all_eq_true.mp h.2 i (List.mem_range.mpr hi)
  rw [hp] at this
  simpa using this

theorem mem_get_pieces {m : Model} {p : Piece} :
    p ∈ get_pieces m ↔ ∃ i : Nat, i < 64 ∧ m.chess_map.getD i none = some p := by
  unfold get_pieces
  rw [List.mem_filterMap]
  constructor
  · rintro ⟨i, hi, hp⟩
    exact ⟨i, List.mem_range.mp hi, hp⟩
  · rintro ⟨i, hi, hp⟩
    exact ⟨i, List.mem_range.mpr hi, hp⟩

theorem get_pieces_onBoard {m : Model} (hwf : WFb m = true) {p : Piece}
    (hp : p ∈ get_pieces m) :
    is_inside p.x p.y = true ∧ get_point m p.x p.y = some p := by
  obtain ⟨i, hi, hsl⟩ := mem_get_pieces.mp hp
  obtain ⟨hin, hcv⟩ := WFb_slot hwf hi hsl
  refine ⟨hin, ?_⟩
  rw [get_point_inboard (WFb_length hwf) hin, hcv]
  simpa using hsl

theorem get_point_mem_pieces {m : Model} (hl : m.chess_map.length = 64)
    {x y : Int} (hin : is_inside x y = true) {q : Piece}
    (hq : get_point m x y = some q) : q ∈ get_pieces m := by
  rw [get_point_inboard hl hin] at hq
  exact mem_get_pieces.mpr ⟨_, convert_toNat_lt hin, hq⟩

theorem get_point_coords {m : Model} (hwf : WFb m = true) {x y : Int}
    (hin : is_inside x y = true) {q : Piece}
    (hq : get_point m x y = some q) : q.x = x ∧ q.y = y := by
  rw [get_point_inboard (WFb_length hwf) hin] at hq
  obtain ⟨hqin, hcv⟩ := WFb_slot hwf (convert_toNat_lt hin) hq
  have hb := convert_bounds hin
  have : _xy_convert q.x q.y = _xy_convert x y := by omega
  have := convert_inj hqin hin this
  exact ⟨this.1, this.2⟩

theorem get_pieces_coords_ne {m : Model} (hwf : WFb m = true) {p q : Piece}
    (hp : p ∈ get_pieces m) (hq : q ∈ get_pieces m) (hne : p ≠ q) :
    ¬(p.x = q.x ∧ p.y = q.y) := by
  rintro ⟨hx, hy⟩
  have h1 := (get_pieces_onBoard hwf hp).2
  have h2 := (get_pieces_onBoard hwf hq).2
  rw [hx, hy, h2] at h1
  exact hne (Option.some_injective _ h1).symm

/-! ### Lemmas about the intervening-square computations -/

theorem mem_intRange {a b k : Int} : k ∈ intRange a b ↔ a ≤ k ∧ k < b := by
  simp only [intRange, List.mem_map, List.mem_range]
  constructor
  · rintro ⟨j, hj, rfl⟩
    omega
  · rintro ⟨h1, h2⟩
    exact ⟨(k - a).toNat, by omega, by omega⟩

theorem mem_rookIntervening {px py x y cx cy : Int} :
    (cx, cy) ∈ rookIntervening px py x y ↔
      (min x px ≤ cx ∧ cx ≤ max x px) ∧ min y py ≤ cy ∧ cy ≤ max y py := by
  unfold rookIntervening
  rw [List.mem_flatMap]
  constructor
  · rintro ⟨ix, hix, hmem⟩
    rw [List.mem_map] at hmem
    obtain ⟨iy, hiy, heq⟩ := hmem
    rw [mem_intRange] at hix hiy
    obtain ⟨rfl, rfl⟩ := Prod.mk.injEq .. |>.mp heq.symm
    omega
  · rintro ⟨⟨h1, h2⟩, h3, h4⟩
    exact ⟨cx, mem_intRange.mpr (by omega),
      List.mem_map.mpr ⟨cy, mem_intRange.mpr (by omega), rfl⟩⟩

theorem pyRemove_of_mem {l : List (Int × Int)} {v : Int × Int} (h : v ∈ l) :
    pyRemove l v = some (l.erase v) := by
  unfold pyRemove
  rw [if_pos h]

theorem pyRemove_of_not_mem {l : List (Int × Int)} {v : Int × Int} (h : v ∉ l) :
    pyRemove l v = none := by
  unfold pyRemove
  rw [if_neg h]

/-- The destination always lies in the rook's nested-comprehension list. -/
theorem dest_mem_rookIntervening {px py x y : Int} :
    (x, y) ∈ rookIntervening px py x y := by
  rw [mem_rookIntervening]
  omega

/-- The source always lies in the rook's nested-comprehension list. -/
theorem src_mem_rookIntervening {px py x y : Int} :
    (px, py) ∈ rookIntervening px py x y := by
  rw [mem_rookIntervening]
  omega

/-- When destination and source differ, the rook branch reaches the shared
blocking/final-square code on its rectangle minus the two endpoints. -/
theorem rock_legal_eq {m : Model} {p : Piece} {x y : Int}
    (hg : ¬(x ≠ p.x ∧ y ≠ p.y)) (hne : ¬(x = p.x ∧ y = p.y)) :
    rock_legal m p x y = some (blocked_or_final m p x y
      (((rookIntervening p.x p.y x y).erase (x, y)).erase (p.x, p.y))) := by
  have hneq : ((p.x, p.y) : Int × Int) ≠ (x, y) := by
    intro he
    rw [Prod.mk.injEq] at he
    exact hne ⟨he.1.symm, he.2.symm⟩
  unfold rock_legal
  rw [if_neg hg]
  simp only [pyRemove_of_mem dest_mem_rookIntervening,
    pyRemove_of_mem ((List.mem_erase_of_ne hneq).mpr src_mem_rookIntervening)]

/-- A raised ValueError in the rook branch forces destination = source. -/
theorem rock_legal_none {m : Model} {p : Piece} {x y : Int}
    (h : rock_legal m p x y = none) : x = p.x ∧ y = p.y := by
  by_contra hne
  rcases Decidable.em (x ≠ p.x ∧ y ≠ p.y) with hg | hg
  · unfold rock_legal at h
    rw [if_pos hg] at h
    simp at h
  · rw [rock_legal_eq hg hne] at h
    simp at h

/-- Membership in the bishop branch's diagonal list. -/
theorem mem_bishopIntervening {px py x y : Int} {c : Int × Int} :
    c ∈ bishopIntervening px py x y ↔
      ∃ i : Nat, i ≤ (px - x).natAbs ∧
        c = (px + (i : Int) * (if px < x then 1 else -1),
             py + (i : Int) * (if py < y then 1 else -1)) := by
  unfold bishopIntervening
  simp only [List.mem_map, List.mem_range]
  constructor
  · rintro ⟨i, hi, rfl⟩
    exact ⟨i, by omega, rfl⟩
  · rintro ⟨i, hi, rfl⟩
    exact ⟨i, by omega, rfl⟩

/-- Under the diagonal guard, the destination lies in the bishop list. -/
theorem dest_mem_bishopIntervening {px py x y : Int}
    (hg : (x - px).natAbs = (y - py).natAbs) :
    (x, y) ∈ bishopIntervening px py x y := by
  rw [mem_bishopIntervening]
  refine ⟨(px - x).natAbs, le_refl _, ?_⟩
  rw [Prod.mk.injEq]
  constructor
  · split <;> omega
  · split <;> omega

/-- The source lies in the bishop list (at index 0). -/
theorem src_mem_bishopIntervening {px py x y : Int} :
    (px, py) ∈ bishopIntervening px py x y := by
  rw [mem_bishopIntervening]
  exact ⟨0, Nat.zero_le _, by simp⟩

/-- When destination and source differ, the bishop branch reaches the
shared blocking/final-square code on its diagonal minus the endpoints. -/
theorem bishop_legal_eq {m : Model} {p : Piece} {x y : Int}
    (hg : (x - p.x).natAbs = (y - p.y).natAbs) (hne : ¬(x = p.x ∧ y = p.y)) :
    bishop_legal m p x y = some (blocked_or_final m p x y
      (((bishopIntervening p.x p.y x y).erase (x, y)).erase (p.x, p.y))) := by
  have hneq : ((p.x, p.y) : Int × Int) ≠ (x, y) := by
    intro he
    rw [Prod.mk.injEq] at he
    exact hne ⟨he.1.symm, he.2.symm⟩
  unfold bishop_legal
  rw [if_neg (by omega)]
  simp only [pyRemove_of_mem (dest_mem_bishopIntervening hg),
    pyRemove_of_mem ((List.mem_erase_of_ne hneq).mpr src_mem_bishopIntervening)]

/-- A raised ValueError in the bishop branch forces destination = source. -/
theorem bishop_legal_none {m : Model} {p : Piece} {x y : Int}
    (h : bishop_legal m p x y = none) : x = p.x ∧ y = p.y := by
  by_contra hne
  rcases Decidable.em ((x - p.x).natAbs = (y - p.y).natAbs) with hg | hg
  · rw [bishop_legal_eq hg hne] at h
    simp at h
  · unfold bishop_legal at h
    rw [if_pos hg] at h
    simp at h

/-- A raised ValueError anywhere in is_legal_move forces dest = source. -/
theorem is_legal_move_none {m : Model} {p : Piece} {x y : Int}
    (h : is_legal_move m p x y = none) : x = p.x ∧ y = p.y := by
  unfold is_legal_move at h
  split at h
  · -- king
    split at h <;> simp at h
  · -- queen
    split at h
    · exact rock_legal_none (by assumption)
    · simp at h
    · exact bishop_legal_none h
  · -- rock
    exact rock_legal_none h
  · -- bishop
    exact bishop_legal_none h
  · -- knight
    split at h <;> simp at h
  · -- pawn
    simp at h

theorem intRange_self {a : Int} : intRange a (a + 1) = [a] := by
  unfold intRange
  have h1 : (a + 1 - a).toNat = 1 := by omega
  rw [h1]
  norm_num [List.range_succ]

theorem rookIntervening_self {px py : Int} :
    rookIntervening px py px py = [(px, py)] := by
  unfold rookIntervening
  simp only [min_self, max_self, intRange_self]
  simp

/-- The rook branch raises ValueError at its own square. -/
theorem rock_legal_self {m : Model} {p : Piece} :
    rock_legal m p p.x p.y = none := by
  unfold rock_legal
  rw [if_neg (by simp)]
  have h1 : pyRemove (rookIntervening p.x p.y p.x p.y) (p.x, p.y) = some [] := by
    rw [rookIntervening_self, pyRemove_of_mem (by simp)]
    simp
  simp only [h1, pyRemove_of_not_mem (List.not_mem_nil _)]

theorem bishopIntervening_self {px py : Int} :
    bishopIntervening px py px py = [(px, py)] := by
  have h1 : (px - px).natAbs + 1 = 1 := by omega
  simp only [bishopIntervening, h1]
  norm_num [List.range_succ]

/-- The bishop branch raises ValueError at its own square. -/
theorem bishop_legal_self {m : Model} {p : Piece} :
    bishop_legal m p p.x p.y = none := by
  unfold bishop_legal
  rw [if_neg (by simp)]
  have h1 : pyRemove (bishopIntervening p.x p.y p.x p.y) (p.x, p.y) = some [] := by
    rw [bishopIntervening_self, pyRemove_of_mem (by simp)]
    simp
  simp only [h1, pyRemove_of_not_mem (List.not_mem_nil _)]

theorem pawn_move_modifier_cases (player : Int) :
    pawn_move_modifier player = 1 ∨ pawn_move_modifier player = -1 := by
  unfold pawn_move_modifier
  split
  · exact Or.inl rfl
  · exact Or.inr rfl

/-- A piece standing on its own square has no legal move to that square:
sliding pieces raise ValueError there, the others return false. -/
theorem is_legal_move_self {m : Model} {p : Piece}
    (hp : get_point m p.x p.y = some p) :
    is_legal_move m p p.x p.y ≠ some true := by
  unfold is_legal_move
  cases p.name
  · -- pawn
    intro h
    rw [Option.some_inj] at h
    unfold pawn_legal at h
    rcases pawn_move_modifier_cases p.player with hm | hm <;>
      rw [if_neg (by omega), if_neg (by omega), if_neg (by omega)] at h <;>
      simp at h
  · -- knight
    rw [if_neg (by omega)]
    simp
  · -- bishop
    rw [bishop_legal_self]
    simp
  · -- rock
    rw [rock_legal_self]
    simp
  · -- queen
    rw [rock_legal_self]
    simp
  · -- king
    rw [if_neg (by omega)]
    unfold blocked_or_final
    rw [if_neg (by simp), hp]
    simp

/-! ### The apply/undo round trip -/

theorem move_unit_eq {m : Model} {p : Piece} {bx byy : Int}
    (hl : m.chess_map.length = 64)
    (hain : is_inside p.x p.y = true) (hbin : is_inside bx byy = true)
    (hne : ¬(p.x = bx ∧ p.y = byy))
    (hp : get_point m p.x p.y = some p) :
    move_unit m (p.x, p.y) (bx, byy) =
      ({ chess_map := (m.chess_map.set (_xy_convert bx byy).toNat
                        (some { p with x := bx, y := byy })).set
                        (_xy_convert p.x p.y).toNat none,
         moves := m.moves ++ [(get_point m bx byy, (p.x, p.y), (bx, byy))] }, false) := by
  have hna := convert_toNat_lt hain
  have hnb := convert_toNat_lt hbin
  have hnane : (_xy_convert p.x p.y).toNat ≠ (_xy_convert bx byy).toNat := by
    intro he
    exact hne (convert_toNat_inj hain hbin he)
  obtain ⟨cm, mv⟩ := m
  simp only [Model.chess_map] at hl hp ⊢
  simp only [move_unit, hp]
  rw [set_point_inboard (by simpa using hl) hbin]
  simp only [Model.chess_map]
  rw [set_point_inboard (by simpa [List.length_set] using hl) hain]
  simp only [Model.chess_map]
  rw [set_coords_inboard (by simpa [List.length_set] using hl) hbin]
  simp only [Model.chess_map, Model.moves]
  rw [getD_set_ne hnane, getD_set_self (by omega)]
  simp only [Option.map_some']
  rw [List.set_comm _ _ _ hnane, List.set_set]

theorem set_point_chess_map_length {m : Model} {t : Option Piece} {x y : Int} :
    (set_point m t x y).chess_map.length = m.chess_map.length := by
  unfold set_point
  split
  · simp
  · rfl

theorem set_point_moves {m : Model} {t : Option Piece} {x y : Int} :
    (set_point m t x y).moves = m.moves := by
  unfold set_point
  split
  · rfl
  · rfl

theorem set_coords_chess_map_length {m : Model} {x y nx ny : Int} :
    (set_coords m x y nx ny).chess_map.length = m.chess_map.length := by
  unfold set_coords
  split
  · simp
  · rfl

theorem set_coords_moves {m : Model} {x y nx ny : Int} :
    (set_coords m x y nx ny).moves = m.moves := by
  unfold set_coords
  split
  · rfl
  · rfl

theorem getElem?_of_getD {l : List (Option Piece)} {k : Nat} (h : k < l.length) :
    l[k]? = some (l.getD k none) := by
  rw [List.getD_eq_getElem?_getD, List.getElem?_eq_getElem h]
  rfl

theorem undo_move_eq {m : Model} {p : Piece} {bx byy : Int}
    (hl : m.chess_map.length = 64)
    (hain : is_inside p.x p.y = true) (hbin : is_inside bx byy = true)
    (hne : ¬(p.x = bx ∧ p.y = byy))
    (hp : get_point m p.x p.y = some p)
    (hcap : ∀ q : Piece, get_point m bx byy = some q → q.x = bx ∧ q.y = byy) :
    undo_move (move_unit m (p.x, p.y) (bx, byy)).1 = (m, false) := by
  have hna := convert_toNat_lt hain
  have hnb := convert_toNat_lt hbin
  have hnane : (_xy_convert p.x p.y).toNat ≠ (_xy_convert bx byy).toNat :=
    fun he => hne (convert_toNat_inj hain hbin he)
  rw [move_unit_eq hl hain hbin hne hp]
  have hgb : get_point m bx byy = m.chess_map.getD (_xy_convert bx byy).toNat none :=
    get_point_inboard hl hbin
  have hga : m.chess_map.getD (_xy_convert p.x p.y).toNat none = some p := by
    rw [← get_point_inboard hl hain]
    exact hp
  obtain ⟨cm, mv⟩ := m
  simp only [Model.chess_map] at hl hga hgb
  have hcapc := hcap
  rw [hgb] at hcapc
  simp only [undo_move, List.getLast?_concat, List.dropLast_concat]
  rw [hgb]
  have hmu : get_point
      { chess_map := (cm.set (_xy_convert bx byy).toNat
                       (some { p with x := bx, y := byy })).set
                       (_xy_convert p.x p.y).toNat none,
        moves := mv } bx byy = some { p with x := bx, y := byy } := by
    rw [get_point_inboard (by simp [hl]) hbin]
    simp only [Model.chess_map]
    rw [getD_set_ne hnane, getD_set_self (by omega)]
  simp only [hmu]
  rcases hcm : cm.getD (_xy_convert bx byy).toNat none with _ | c
  · -- nothing was captured: the set_pos on the popped entry is skipped
    rw [if_neg (by simp)]
    rw [set_point_inboard (by simp [hl]) hbin]
    simp only [Model.chess_map, Model.moves]
    rw [set_point_inboard (by simp [hl]) hain]
    simp only [Model.chess_map, Model.moves]
    rw [set_coords_inboard (by simp [hl]) hain]
    simp only [Model.chess_map, Model.moves]
    rw [getD_set_self (by simp [hl]; omega)]
    simp only [Option.map_some']
    simp only [Prod.mk.injEq, Model.mk.injEq, and_true]
    apply List.ext_getElem?
    intro n
    rcases eq_or_ne n (_xy_convert p.x p.y).toNat with rfl | hn1
    · rw [List.getElem?_set_eq (by simpa [hl] using hna),
          getElem?_of_getD (by omega), hga]
    · rcases eq_or_ne n (_xy_convert bx byy).toNat with rfl | hn2
      · rw [List.getElem?_set_ne (Ne.symm hn1), List.getElem?_set_ne (Ne.symm hn1),
            List.getElem?_set_eq (by simpa [hl] using hnb),
            getElem?_of_getD (by omega), hcm]
      · rw [List.getElem?_set_ne (Ne.symm hn1), List.getElem?_set_ne (Ne.symm hn1),
            List.getElem?_set_ne (Ne.symm hn2), List.getElem?_set_ne (Ne.symm hn1),
            List.getElem?_set_ne (Ne.symm hn2)]
  · -- a piece was captured: its set_pos rewrites the destination slot
    obtain ⟨hcx, hcy⟩ := hcapc c hcm
    have hceta : ({ c with x := bx, y := byy } : Piece) = c := by
      rw [← hcx, ← hcy]
    rw [set_point_inboard (by simp [hl]) hbin]
    simp only [Model.chess_map, Model.moves]
    rw [set_point_inboard (by simp [hl]) hain]
    simp only [Model.chess_map, Model.moves]
    rw [if_pos ?hcond]
    case hcond =>
      refine ⟨rfl, ?_⟩
      simp only [Model.chess_map, List.length_set, hl]
      rw [pyIdx_inboard hain, pyIdx_inboard hbin]
      exact fun hh => hnane (Option.some_injective _ hh)
    rw [set_coords_inboard (by simp [hl]) hbin]
    simp only [Model.chess_map, Model.moves]
    rw [getD_set_ne hnane, getD_set_self (by simp [hl]; omega)]
    simp only [Option.map_some']
    rw [hceta]
    rw [set_coords_inboard (by simp [hl]) hain]
    simp only [Model.chess_map, Model.moves]
    rw [getD_set_ne hnane.symm, getD_set_self (by simp [hl]; omega)]
    simp only [Option.map_some']
    simp only [Prod.mk.injEq, Model.mk.injEq, and_true]
    apply List.ext_getElem?
    intro n
    rcases eq_or_ne n (_xy_convert p.x p.y).toNat with rfl | hn1
    · rw [List.getElem?_set_eq (by simpa [hl] using hna),
          getElem?_of_getD (by omega), hga]
    · rcases eq_or_ne n (_xy_convert bx byy).toNat with rfl | hn2
      · rw [List.getElem?_set_ne (Ne.symm hn1),
            List.getElem?_set_eq (by simpa [hl] using hnb),
            getElem?_of_getD (by omega), hcm]
      · rw [List.getElem?_set_ne (Ne.symm hn1), List.getElem?_set_ne (Ne.symm hn2),
            List.getElem?_set_ne (Ne.symm hn1), List.getElem?_set_ne (Ne.symm hn2),
            List.getElem?_set_ne (Ne.symm hn1), List.getElem?_set_ne (Ne.symm hn2)]

/-- A well-formed trial move: crash-free, and the claimed round trip. -/
theorem move_unit_no_crash {m : Model} {p : Piece} {bx byy : Int}
    (hl : m.chess_map.length = 64)
    (hain : is_inside p.x p.y = true) (hbin : is_inside bx byy = true)
    (hne : ¬(p.x = bx ∧ p.y = byy))
    (hp : get_point m p.x p.y = some p) :
    (move_unit m (p.x, p.y) (bx, byy)).2 = false := by
  rw [move_unit_eq hl hain hbin hne hp]

/-- The speculative move preserves board well-formedness. -/
theorem move_unit_WF {m : Model} {p : Piece} {bx byy : Int}
    (hwf : WFb m = true)
    (hain : is_inside p.x p.y = true) (hbin : is_inside bx byy = true)
    (hne : ¬(p.x = bx ∧ p.y = byy))
    (hp : get_point m p.x p.y = some p) :
    WFb (move_unit m (p.x, p.y) (bx, byy)).1 = true := by
  have hl := WFb_length hwf
  have hna := convert_toNat_lt hain
  have hnb := convert_toNat_lt hbin
  have hnane : (_xy_convert p.x p.y).toNat ≠ (_xy_convert bx byy).toNat :=
    fun he => hne (convert_toNat_inj hain hbin he)
  rw [move_unit_eq hl hain hbin hne hp]
  unfold WFb
  rw [Bool.and_eq_true]
  constructor
  · simp [hl]
  · rw [List.all_eq_true]
    intro i hi
    have hi64 := List.mem_range.mp hi
    rcases eq_or_ne i (_xy_convert p.x p.y).toNat with rfl | hi1
    · rw [Model.chess_map]
      rw [getD_set_self (by simp [hl]; omega)]
    · rcases eq_or_ne i (_xy_convert bx byy).toNat with rfl | hi2
      · rw [Model.chess_map]
        rw [getD_set_ne hnane, getD_set_self (by omega)]
        have hb := convert_bounds hbin
        simp only [Bool.and_eq_true, decide_eq_true_eq]
        exact ⟨hbin, by simp; omega⟩
      · rw [Model.chess_map]
        rw [getD_set_ne (Ne.symm hi1), getD_set_ne (Ne.symm hi2)]
        rcases hq : m.chess_map.getD i none with _ | q
        · rfl
        · have := WFb_slot hwf hi64 hq
          simp only [Bool.and_eq_true, decide_eq_true_eq]
          exact ⟨this.1, by simp [this.2]⟩

/-! ### Legal-move enumeration and check detection never raise on
well-formed boards -/

theorem zero_not_mem_movement (n : Name) (pl : Int) :
    ((0, 0) : Int × Int) ∉ movement n pl := by
  cases n
  case pawn =>
    rcases pawn_move_modifier_cases pl with hm | hm <;>
      · simp only [movement, hm]
        decide
  all_goals simp only [movement]
  all_goals decide

theorem legal_moves_go_some {m : Model} {p : Piece} (cands : List (Int × Int))
    (hc : ∀ c ∈ cands, ¬(c.1 = p.x ∧ c.2 = p.y)) :
    ∃ l, legal_moves_go m p cands = some l ∧
      ∀ mv, mv ∈ l ↔ mv ∈ cands ∧ is_inside mv.1 mv.2 = true ∧
        is_legal_move m p mv.1 mv.2 = some true := by
  induction cands with
  | nil => exact ⟨[], rfl, by simp [legal_moves_go]⟩
  | cons c cs ih =>
    obtain ⟨l, hl, hmem⟩ := ih (fun d hd => hc d (List.mem_cons_of_mem _ hd))
    unfold legal_moves_go
    by_cases hin : is_inside c.1 c.2 = true
    · rw [if_pos hin]
      rcases hleg : is_legal_move m p c.1 c.2 with _ | b
      · exact absurd (is_legal_move_none hleg)
          (fun hh => hc c (List.mem_cons_self _ _) ⟨hh.1.symm ▸ rfl, hh.2.symm ▸ rfl⟩)
      · rw [hl]
        refine ⟨if b then c :: l else l, rfl, ?_⟩
        intro mv
        cases b
        · rw [if_neg Bool.false_ne_true]
          rw [hmem mv]
          constructor
          · rintro ⟨h1, h2, h3⟩
            exact ⟨List.mem_cons_of_mem _ h1, h2, h3⟩
          · rintro ⟨h1, h2, h3⟩
            rcases List.mem_cons.mp h1 with rfl | h1
            · rw [hleg] at h3
              simp at h3
            · exact ⟨h1, h2, h3⟩
        · rw [if_pos rfl]
          rw [List.mem_cons, hmem mv]
          constructor
          · rintro (rfl | ⟨h1, h2, h3⟩)
            · exact ⟨List.mem_cons_self _ _, hin, hleg⟩
            · exact ⟨List.mem_cons_of_mem _ h1, h2, h3⟩
          · rintro ⟨h1, h2, h3⟩
            rcases List.mem_cons.mp h1 with rfl | h1
            · exact Or.inl rfl
            · exact Or.inr ⟨h1, h2, h3⟩
    · rw [if_neg hin, hl]
      refine ⟨l, rfl, ?_⟩
      intro mv
      rw [hmem mv]
      constructor
      · rintro ⟨h1, h2, h3⟩
        exact ⟨List.mem_cons_of_mem _ h1, h2, h3⟩
      · rintro ⟨h1, h2, h3⟩
        rcases List.mem_cons.mp h1 with rfl | h1
        · exact absurd h2 hin
        · exact ⟨h1, h2, h3⟩

theorem legal_moves_spec (m : Model) (p : Piece) :
    ∃ l, legal_moves m p = some l ∧
      ∀ mv, mv ∈ l ↔
        (∃ d ∈ movement p.name p.player, (d.1 + p.x, d.2 + p.y) = mv) ∧
        is_inside mv.1 mv.2 = true ∧ is_legal_move m p mv.1 mv.2 = some true := by
  unfold legal_moves
  have hcand : ∀ c ∈ (movement p.name p.player).map
      (fun d => (d.1 + p.x, d.2 + p.y)), ¬(c.1 = p.x ∧ c.2 = p.y) := by
    intro c hcm hcp
    obtain ⟨d, hd, rfl⟩ := List.mem_map.mp hcm
    have h1 : d.1 + p.x = p.x := hcp.1
    have h2 : d.2 + p.y = p.y := hcp.2
    have hd0 : d = (0, 0) := by
      rcases d with ⟨d1, d2⟩
      simp only at h1 h2
      simp only [Prod.mk.injEq]
      omega
    rw [hd0] at hd
    exact zero_not_mem_movement _ _ hd
  obtain ⟨l, hl, hmem⟩ := legal_moves_go_some _ hcand
  refine ⟨l, hl, ?_⟩
  intro mv
  rw [hmem mv, List.mem_map]

theorem anyLegal_eq {m : Model} {kx ky : Int} {ps : List Piece}
    (h : ∀ q ∈ ps, is_legal_move m q kx ky ≠ none) :
    anyLegal m kx ky ps =
      some (ps.any (fun q => is_legal_move m q kx ky == some true)) := by
  induction ps with
  | nil => rfl
  | cons q qs ih =>
    unfold anyLegal
    rcases hleg : is_legal_move m q kx ky with _ | b
    · exact absurd hleg (h q (List.mem_cons_self _ _))
    · cases b
      · rw [ih (fun r hr => h r (List.mem_cons_of_mem _ hr))]
        simp [hleg]
      · simp [hleg]

theorem is_in_check_eq {m : Model} (hwf : WFb m = true) (t : Int) :
    is_in_check m t =
      some (match (get_pieces m).filter
              (fun q => q.name == Name.king && q.player != t) with
        | [] => false
        | k :: _ => ((get_pieces m).filter (fun q => q.player == t)).any
            (fun q => is_legal_move m q k.x k.y == some true)) := by
  simp only [is_in_check]
  rcases hk : (get_pieces m).filter
      (fun q => q.name == Name.king && q.player != t) with _ | ⟨k, ks⟩
  · rw [hk]
  · rw [hk]
    have hkmem : k ∈ get_pieces m ∧ (k.name = Name.king ∧ k.player ≠ t) := by
      have := List.mem_filter.mp (hk ▸ List.mem_cons_self k ks)
      constructor
      · exact this.1
      · simpa using this.2
    apply anyLegal_eq
    intro q hq hleg
    have hqmem := List.mem_filter.mp hq
    have hqp : q.player = t := by simpa using hqmem.2
    have hne : q ≠ k := by
      intro he
      rw [he] at hqp
      exact hkmem.2.2 hqp
    have hcoords := is_legal_move_none hleg
    exact get_pieces_coords_ne hwf hqmem.1 hkmem.1 hne
      ⟨hcoords.1.symm, hcoords.2.symm⟩

theorem is_in_check_some {m : Model} (hwf : WFb m = true) (t : Int) :
    ∃ b, is_in_check m t = some b :=
  ⟨_, is_in_check_eq hwf t⟩

/-! ### The simulate-and-rollback search -/

theorem trial_moves_eq {m : Model} (hwf : WFb m = true) {p2 : Piece}
    (hp2 : p2 ∈ get_pieces m) (lm : Int) {mvs : List (Int × Int)}
    (hmvs : ∀ mv ∈ mvs, is_inside mv.1 mv.2 = true ∧
      is_legal_move m p2 mv.1 mv.2 = some true) :
    trial_moves m lm (p2.x, p2.y) mvs =
      some (m, mvs.any (fun mv =>
        is_in_check (move_unit m (p2.x, p2.y) mv).1 lm == some false)) := by
  induction mvs with
  | nil => rfl
  | cons mv rest ih =>
    obtain ⟨mx, my⟩ := mv
    obtain ⟨hin, hleg⟩ := hmvs (mx, my) (List.mem_cons_self _ _)
    obtain ⟨hpin, hpget⟩ := get_pieces_onBoard hwf hp2
    have hne : ¬(p2.x = mx ∧ p2.y = my) := by
      rintro ⟨h1, h2⟩
      apply is_legal_move_self hpget
      rw [h1, h2]
      exact hleg
    have hcap : ∀ q : Piece, get_point m mx my = some q → q.x = mx ∧ q.y = my :=
      fun q hq => get_point_coords hwf hin hq
    have hmv_eq := move_unit_eq (WFb_length hwf) hpin hin hne hpget
    have hMwf := move_unit_WF hwf hpin hin hne hpget
    obtain ⟨b, hb⟩ := is_in_check_some hMwf lm
    have hundo := undo_move_eq (WFb_length hwf) hpin hin hne hpget hcap
    have hcrash := move_unit_no_crash (WFb_length hwf) hpin hin hne hpget
    unfold trial_moves
    rcases hM : move_unit m (p2.x, p2.y) (mx, my) with ⟨M, flag⟩
    rw [hM] at hb hundo hcrash
    simp only at hb hundo hcrash
    have hbeq : is_in_check (move_unit m (p2.x, p2.y) (mx, my)).1 lm = some b := by
      rw [hM]
      exact hb
    subst hcrash
    simp only [hb, hundo]
    cases b
    · rw [if_neg Bool.false_ne_true]
      simp [hbeq]
    · rw [if_pos rfl]
      rw [ih (fun mv2 h2 => hmvs mv2 (List.mem_cons_of_mem _ h2))]
      simp [hbeq]

theorem defender_loop_eq {m : Model} (hwf : WFb m = true) (lm : Int)
    {others : List Piece} (hothers : ∀ q ∈ others, q ∈ get_pieces m) :
    defender_loop m lm others = some (m, others.any (fun p2 =>
      ((legal_moves m p2).getD []).any (fun mv =>
        is_in_check (move_unit m (p2.x, p2.y) mv).1 lm == some false))) := by
  induction others with
  | nil => rfl
  | cons p2 rest ih =>
    obtain ⟨l, hl, hmem⟩ := legal_moves_spec m p2
    have hmvs : ∀ mv ∈ l, is_inside mv.1 mv.2 = true ∧
        is_legal_move m p2 mv.1 mv.2 = some true := by
      intro mv hmv
      obtain ⟨_, h2, h3⟩ := (hmem mv).mp hmv
      exact ⟨h2, h3⟩
    have htr := trial_moves_eq hwf (hothers p2 (List.mem_cons_self _ _)) lm hmvs
    unfold defender_loop
    simp only [hl, htr]
    rcases hesc : l.any (fun mv =>
        is_in_check (move_unit m (p2.x, p2.y) mv).1 lm == some false) with _ | _
    · rw [if_neg Bool.false_ne_true]
      rw [ih (fun q hq => hothers q (List.mem_cons_of_mem _ hq))]
      simp [hl, hesc]
    · rw [if_pos rfl]
      simp [hl, hesc]

theorem checker_loop_eq {m : Model} (hwf : WFb m = true) (lm : Int) {k : Piece}
    (hk : k ∈ get_pieces m) (hkp : k.player ≠ lm)
    {others : List Piece} (hothers : ∀ q ∈ others, q ∈ get_pieces m)
    {checkers : List Piece}
    (hcheckers : ∀ q ∈ checkers, q ∈ get_pieces m ∧ q.player = lm)
    (flag : Bool) :
    checker_loop m lm k.x k.y others flag checkers =
      some (m, if checkers.any (fun q => is_legal_move m q k.x k.y == some true)
        then !(others.any (fun p2 => ((legal_moves m p2).getD []).any
               (fun mv => is_in_check (move_unit m (p2.x, p2.y) mv).1 lm == some false)))
        else flag) := by
  induction checkers generalizing flag with
  | nil => simp [checker_loop]
  | cons q rest ih =>
    obtain ⟨hqmem, hqp⟩ := hcheckers q (List.mem_cons_self _ _)
    have hqnn : is_legal_move m q k.x k.y ≠ none := by
      intro hno
      have hne : q ≠ k := by
        intro he
        rw [he] at hqp
        exact hkp hqp
      have hcoords := is_legal_move_none hno
      exact get_pieces_coords_ne hwf hqmem hk hne ⟨hcoords.1.symm, hcoords.2.symm⟩
    rcases hb : is_legal_move m q k.x k.y with _ | b
    · exact absurd hb hqnn
    unfold checker_loop
    simp only [hb]
    cases b
    · rw [ih (fun r hr => hcheckers r (List.mem_cons_of_mem _ hr)) flag]
      simp [hb]
    · rw [defender_loop_eq hwf lm hothers]
      simp only
      rw [ih (fun r hr => hcheckers r (List.mem_cons_of_mem _ hr))]
      by_cases hra : rest.any (fun r => is_legal_move m r k.x k.y == some true) = true
      · simp [hra, hb]
      · simp [hra, hb]

theorem filter_any_eq {α : Type} (l : List α) (p f : α → Bool) :
    (l.filter p).any f = l.any (fun a => p a && f a) := by
  induction l with
  | nil => rfl
  | cons a as ih =>
    by_cases hp : p a = true <;> simp [List.filter_cons, hp, ih]

theorem filter_all_eq {α : Type} (l : List α) (p f : α → Bool) :
    (l.filter p).all f = l.all (fun a => !(p a) || f a) := by
  induction l with
  | nil => rfl
  | cons a as ih =>
    by_cases hp : p a = true <;> simp [List.filter_cons, hp, ih]

theorem not_any_eq_all {α : Type} (l : List α) (f : α → Bool) :
    (!(l.any f)) = l.all (fun a => !(f a)) := by
  induction l with
  | nil => rfl
  | cons a as ih => simp [ih]

theorem all_congr_mem {α : Type} {l : List α} {f g : α → Bool}
    (h : ∀ a ∈ l, f a = g a) : l.all f = l.all g := by
  induction l with
  | nil => rfl
  | cons a as ih =>
    simp only [List.all_cons, h a (List.mem_cons_self _ _),
      ih (fun b hb => h b (List.mem_cons_of_mem _ hb))]

/-- On a well-formed board every speculative trial of the checkmate search
yields a definite check verdict. -/
theorem trial_check_some {m : Model} (hwf : WFb m = true) {p2 : Piece}
    (hp2 : p2 ∈ get_pieces m) (lm : Int) {mv : Int × Int}
    (hin : is_inside mv.1 mv.2 = true)
    (hleg : is_legal_move m p2 mv.1 mv.2 = some true) :
    ∃ b, is_in_check (move_unit m (p2.x, p2.y) mv).1 lm = some b := by
  obtain ⟨mx, my⟩ := mv
  obtain ⟨hpin, hpget⟩ := get_pieces_onBoard hwf hp2
  have hne : ¬(p2.x = mx ∧ p2.y = my) := by
    rintro ⟨h1, h2⟩
    apply is_legal_move_self hpget
    rw [h1, h2]
    exact hleg
  exact is_in_check_some (move_unit_WF hwf hpin hin hne hpget) lm

theorem noEscape_bridge {m : Model} (hwf : WFb m = true) (lm : Int) :
    (!(((get_pieces m).filter (fun q => q.player != lm)).any
        (fun p2 => ((legal_moves m p2).getD []).any
          (fun mv => is_in_check (move_unit m (p2.x, p2.y) mv).1 lm == some false))))
      = noEscapeB m lm := by
  rw [not_any_eq_all, filter_all_eq]
  unfold noEscapeB
  apply all_congr_mem
  intro p2 hp2
  by_cases hpl : (p2.player == lm) = true
  · simp only [bne, Bool.not_not, hpl, Bool.true_or]
  · simp only [bne, hpl, Bool.not_false, Bool.not_not, Bool.false_or]
    rw [not_any_eq_all]
    apply all_congr_mem
    intro mv hmv
    obtain ⟨l, hl, hmem⟩ := legal_moves_spec m p2
    rw [hl] at hmv
    simp only [Option.getD_some] at hmv
    obtain ⟨_, hin, hleg⟩ := (hmem mv).mp hmv
    obtain ⟨b, hb⟩ := trial_check_some hwf hp2 lm hin hleg
    rw [hb]
    cases b <;> rfl

theorem existsCheck_bridge (m : Model) (lm kx ky : Int) :
    ((get_pieces m).filter (fun q => q.player == lm)).any
        (fun q => is_legal_move m q kx ky == some true) = existsCheckB m lm kx ky := by
  rw [filter_any_eq]
  rfl

theorem is_in_checkmate_empty {m : Model} (h : m.moves = []) :
    is_in_checkmate m = some (m, false) := by
  unfold is_in_checkmate
  rw [h]
  rfl

theorem is_in_checkmate_run {m : Model} (hwf : WFb m = true)
    {cap : Option Piece} {fp tp : Int × Int}
    (hlast : m.moves.getLast? = some (cap, fp, tp))
    {mover : Piece} (hmv : get_point m tp.1 tp.2 = some mover) :
    is_in_checkmate m = some (m,
      match kingsOf m mover.player with
      | [] => false
      | k :: _ => existsCheckB m mover.player k.x k.y && noEscapeB m mover.player) := by
  simp only [is_in_checkmate, hlast, hmv]
  unfold kingsOf
  rcases hks : (get_pieces m).filter
      (fun q => q.name == Name.king && q.player != mover.player) with _ | ⟨k, ks⟩
  · rw [hks]
  · rw [hks]
    dsimp only
    have hkin := List.mem_filter.mp (hks ▸ List.mem_cons_self k ks)
    have hkp : k.player ≠ mover.player := by
      have := hkin.2
      simp only [Bool.and_eq_true, beq_iff_eq, bne_iff_ne, ne_eq] at this
      exact this.2
    rw [checker_loop_eq hwf mover.player hkin.1 hkp
      (fun q hq => (List.mem_filter.mp hq).1)
      (fun q hq => ⟨(List.mem_filter.mp hq).1, by
        have := (List.mem_filter.mp hq).2
        simpa using this⟩)
      false]
    rw [existsCheck_bridge, noEscape_bridge hwf]
    have hsplit : ∀ (a b : Bool), (if a = true then b else false) = (a && b) := by
      decide
    rw [hsplit]

/-! ### Claim theorems -/

/-- C1 counterexample: on the standard opening position the move
(1,1)-(1,1) has an occupied source, yet apply-then-undo does not restore
the board: the undo raises AttributeError (crash flag) and the rook's
square is left empty. -/
theorem move_undo_roundtrip_cex :
    (move_unit standard_model ((1 : Int), (1 : Int)) (1, 1)).2 = false ∧
    (undo_move (move_unit standard_model ((1 : Int), (1 : Int)) (1, 1)).1).2 = true ∧
    get_point (undo_move (move_unit standard_model ((1 : Int), (1 : Int)) (1, 1)).1).1 1 1 = none ∧
    (get_point standard_model 1 1).isSome = true := by
  decide

/-- C1 (amended): on a board satisfying the documented invariant, for
every in-board move with distinct source and destination whose source is
occupied, apply_move then undo_move runs without error and restores the
exact pre-move state (same Model value: same occupants and piece objects,
same stored coordinates, same history), the intermediate history being one
entry longer. -/
theorem move_undo_roundtrip {m : Model} {a b : Int × Int} {p : Piece}
    (hwf : WFb m = true) (ha : is_inside a.1 a.2 = true)
    (hb : is_inside b.1 b.2 = true) (hne : a ≠ b)
    (hp : get_point m a.1 a.2 = some p) :
    (move_unit m a b).2 = false ∧
    undo_move (move_unit m a b).1 = (m, false) ∧
    (move_unit m a b).1.moves.length = m.moves.length + 1 := by
  obtain ⟨ax, ay⟩ := a
  obtain ⟨bx, byy⟩ := b
  obtain ⟨hpx, hpy⟩ := get_point_coords hwf ha hp
  simp only at hpx hpy
  subst hpx
  subst hpy
  have hne2 : ¬(p.x = bx ∧ p.y = byy) := by
    rintro ⟨h1, h2⟩
    exact hne (by rw [h1, h2])
  have hcap : ∀ q : Piece, get_point m bx byy = some q → q.x = bx ∧ q.y = byy :=
    fun q hq => get_point_coords hwf hb hq
  refine ⟨move_unit_no_crash (WFb_length hwf) ha hb hne2 hp,
    undo_move_eq (WFb_length hwf) ha hb hne2 hp hcap, ?_⟩
  rw [move_unit_eq (WFb_length hwf) ha hb hne2 hp]
  simp

/-- C1 witness: the standard opening move a2-a4 round-trips exactly. -/
theorem move_undo_roundtrip_witness :
    (move_unit standard_model ((1 : Int), (2 : Int)) (1, 4)).2 = false ∧
    undo_move (move_unit standard_model ((1 : Int), (2 : Int)) (1, 4)).1 =
      (standard_model, false) ∧
    (move_unit standard_model ((1 : Int), (2 : Int)) (1, 4)).1.moves.length =
      standard_model.moves.length + 1 :=
  move_undo_roundtrip (p := { name := Name.pawn, player := 0, x := 1, y := 2, pid := 8 })
    (by decide) (by decide) (by decide) (by decide) (by decide)

/-- C2: the checkmate evaluator returns false on an empty history; when a
last move exists and its destination is occupied, it returns false if the
king opposing the last mover is absent, and otherwise returns true exactly
when some piece of the last mover has a legal move onto that king's square
and every legal move of every opposing piece, speculatively applied,
leaves the opposing side still in check by the last mover. -/
theorem is_in_checkmate_spec {m : Model} (hwf : WFb m = true) :
    (m.moves = [] → is_in_checkmate m = some (m, false)) ∧
    (∀ cap fp tp mover, m.moves.getLast? = some (cap, fp, tp) →
      get_point m tp.1 tp.2 = some mover →
      (kingsOf m mover.player = [] → is_in_checkmate m = some (m, false)) ∧
      ∀ k rest, kingsOf m mover.player = k :: rest →
        is_in_checkmate m = some (m,
          existsCheckB m mover.player k.x k.y && noEscapeB m mover.player)) := by
  refine ⟨is_in_checkmate_empty, ?_⟩
  intro cap fp tp mover hlast hmv
  have hrun := is_in_checkmate_run hwf hlast hmv
  constructor
  · intro hk
    rw [hrun, hk]
  · intro k rest hk
    rw [hrun, hk]

/-- C2 witness: on the back-rank-mate position the evaluator returns the
conjunction of the two spec-side conditions, which evaluates to true. -/
theorem is_in_checkmate_spec_witness :
    is_in_checkmate wmate = some (wmate, true) := by
  have h := ((is_in_checkmate_spec (m := wmate) (by decide)).2 none
      ((8 : Int), (1 : Int)) ((8 : Int), (8 : Int))
      { name := Name.rock, player := 0, x := 8, y := 8, pid := 1 }
      (by decide) (by decide)).2
      { name := Name.king, player := 1, x := 1, y := 8, pid := 2 } []
      (by decide)
  rw [h]
  decide

/-- C3: on a well-formed board whose last recorded move (if any) has an
occupied destination, the checkmate evaluator returns without error and
the returned board state is exactly the input state: every speculative
move_unit of the search was paired with an exact undo_move. -/
theorem is_in_checkmate_frame {m : Model} (hwf : WFb m = true)
    (hdest : last_dest_occupied m = true) :
    ∃ b : Bool, is_in_checkmate m = some (m, b) := by
  rcases hlast : m.moves.getLast? with _ | ⟨cap, fp, tp⟩
  · refine ⟨false, ?_⟩
    unfold is_in_checkmate
    rw [hlast]
  · have hdest2 : (get_point m tp.1 tp.2).isSome = true := by
      unfold last_dest_occupied at hdest
      rw [hlast] at hdest
      exact hdest
    rcases hmv : get_point m tp.1 tp.2 with _ | mover
    · rw [hmv] at hdest2
      simp at hdest2
    · exact ⟨_, is_in_checkmate_run hwf hlast hmv⟩

/-- C3 witness: the evaluator leaves the back-rank-mate position
unchanged. -/
theorem is_in_checkmate_frame_witness :
    ∃ b : Bool, is_in_checkmate wmate = some (wmate, b) :=
  is_in_checkmate_frame (by decide) (by decide)

/-! ### Helper lemmas for the sliding-piece claim -/

theorem between_strict_iff {a b c : Int × Int} :
    between_strict a b c = true ↔
      (c.1 - a.1) * (b.2 - a.2) = (c.2 - a.2) * (b.1 - a.1) ∧
      (min a.1 b.1 ≤ c.1 ∧ c.1 ≤ max a.1 b.1 ∧
       min a.2 b.2 ≤ c.2 ∧ c.2 ≤ max a.2 b.2) ∧
      c ≠ a ∧ c ≠ b := by
  unfold between_strict
  simp [and_assoc]

theorem mem_erase_erase {l : List (Int × Int)} {u v c : Int × Int}
    (hc : c ∈ l) (hu : c ≠ u) (hv : c ≠ v) : c ∈ (l.erase u).erase v :=
  (List.mem_erase_of_ne hv).mpr ((List.mem_erase_of_ne hu).mpr hc)

theorem any_false_get_none {m : Model} {iv : List (Int × Int)} {c : Int × Int}
    (hany : ¬(iv.any (fun q => (get_point m q.1 q.2).isSome) = true))
    (hc : c ∈ iv) : get_point m c.1 c.2 = none := by
  rw [List.any_eq_true] at hany
  push_neg at hany
  have := hany c hc
  simpa using this

/-- If the rook branch accepts a move, every square strictly between
source and destination is empty. -/
theorem rock_between_empty {m : Model} {p : Piece} {x y : Int}
    (h : rock_legal m p x y = some true) :
    ∀ c : Int × Int, between_strict (p.x, p.y) (x, y) c = true →
      get_point m c.1 c.2 = none := by
  intro c hc
  rw [between_strict_iff] at hc
  obtain ⟨hcol, hbox, hca, hcb⟩ := hc
  simp only at hcol hbox
  by_cases hg : (x ≠ p.x ∧ y ≠ p.y)
  · unfold rock_legal at h
    rw [if_pos hg] at h
    simp at h
  · by_cases hne : (x = p.x ∧ y = p.y)
    · obtain ⟨h1, h2⟩ := hne
      rw [h1, h2] at h
      rw [rock_legal_self] at h
      simp at h
    · rw [rock_legal_eq hg hne] at h
      rw [Option.some_inj] at h
      unfold blocked_or_final at h
      split at h
      · exact absurd h (by simp)
      · rename_i hany
        apply any_false_get_none hany
        apply mem_erase_erase _ (by simpa [Prod.ext_iff] using hcb)
          (by simpa [Prod.ext_iff] using hca)
        rw [show c = (c.1, c.2) from rfl, mem_rookIntervening]
        rcases Decidable.em (x = p.x) with hx | hx
        · have hy : y ≠ p.y := fun hy => hne ⟨hx, hy⟩
          have hc1 : c.1 = p.x := by
            have : (c.2 - p.y) * (x - p.x) = 0 := by
              rw [hx]
              ring
            rw [this] at hcol
            have := mul_eq_zero.mp hcol
            rcases this with h1 | h1
            · omega
            · omega
          omega
        · have hy : y = p.y := by tauto
          have hc2 : c.2 = p.y := by
            have : (c.1 - p.x) * (y - p.y) = 0 := by
              rw [hy]
              ring
            rw [this] at hcol
            have := (mul_eq_zero.mp hcol.symm)
            rcases this with h1 | h1
            · omega
            · omega
          omega

/-- If the bishop branch accepts a move, every square strictly between
source and destination is empty. -/
theorem bishop_between_empty {m : Model} {p : Piece} {x y : Int}
    (h : bishop_legal m p x y = some true) :
    ∀ c : Int × Int, between_strict (p.x, p.y) (x, y) c = true →
      get_point m c.1 c.2 = none := by
  intro c hc
  rw [between_strict_iff] at hc
  obtain ⟨hcol, hbox, hca, hcb⟩ := hc
  simp only at hcol hbox
  by_cases hg : (x - p.x).natAbs = (y - p.y).natAbs
  · by_cases hne : (x = p.x ∧ y = p.y)
    · obtain ⟨h1, h2⟩ := hne
      rw [h1, h2] at h
      rw [bishop_legal_self] at h
      simp at h
    · rw [bishop_legal_eq hg hne] at h
      rw [Option.some_inj] at h
      unfold blocked_or_final at h
      split at h
      · exact absurd h (by simp)
      · rename_i hany
        apply any_false_get_none hany
        apply mem_erase_erase _ (by simpa [Prod.ext_iff] using hcb)
          (by simpa [Prod.ext_iff] using hca)
        have hxne : x ≠ p.x := by
          intro hx
          exact hne ⟨hx, by omega⟩
        have hyne : y ≠ p.y := by
          intro hy
          exact hne ⟨by omega, hy⟩
        rw [mem_bishopIntervening]
        refine ⟨(c.1 - p.x).natAbs, by omega, ?_⟩
        have hdiag : c.2 - p.y = c.1 - p.x ∨ c.2 - p.y = -(c.1 - p.x) := by
          rcases lt_or_gt_of_ne hxne with h1 | h1 <;>
            rcases lt_or_gt_of_ne hyne with h2 | h2
          · have hk : y - p.y = x - p.x := by omega
            rw [hk] at hcol
            exact Or.inl (mul_right_cancel₀ (by omega) hcol).symm
          · have hk : y - p.y = -(x - p.x) := by omega
            rw [hk] at hcol
            have h3 : (-(c.1 - p.x)) * (x - p.x) = (c.2 - p.y) * (x - p.x) := by
              linear_combination hcol
            have := mul_right_cancel₀ (by omega : x - p.x ≠ 0) h3
            exact Or.inr (by omega)
          · have hk : y - p.y = -(x - p.x) := by omega
            rw [hk] at hcol
            have h3 : (-(c.1 - p.x)) * (x - p.x) = (c.2 - p.y) * (x - p.x) := by
              linear_combination hcol
            have := mul_right_cancel₀ (by omega : x - p.x ≠ 0) h3
            exact Or.inr (by omega)
          · have hk : y - p.y = x - p.x := by omega
            rw [hk] at hcol
            exact Or.inl (mul_right_cancel₀ (by omega) hcol).symm
        rw [Prod.ext_iff]
        constructor
        · simp only
          split <;> omega
        · simp only
          split <;> rcases hdiag with hd | hd <;> omega
  · unfold bishop_legal at h
    rw [if_pos hg] at h
    simp at h

theorem blocked_or_final_friendly {m : Model} {p : Piece} {x y : Int}
    {iv : List (Int × Int)} {q : Piece} (hq : get_point m x y = some q)
    (hpl : q.player = p.player) : blocked_or_final m p x y iv = false := by
  unfold blocked_or_final
  split
  · rfl
  · rw [hq]
    simp [hpl]

theorem rock_legal_not_true_friendly {m : Model} {p : Piece} {x y : Int}
    {q : Piece} (hq : get_point m x y = some q) (hpl : q.player = p.player) :
    rock_legal m p x y ≠ some true := by
  by_cases hg : (x ≠ p.x ∧ y ≠ p.y)
  · unfold rock_legal
    rw [if_pos hg]
    simp
  · by_cases hne : (x = p.x ∧ y = p.y)
    · obtain ⟨h1, h2⟩ := hne
      rw [h1, h2, rock_legal_self]
      simp
    · rw [rock_legal_eq hg hne, blocked_or_final_friendly hq hpl]
      simp

theorem bishop_legal_not_true_friendly {m : Model} {p : Piece} {x y : Int}
    {q : Piece} (hq : get_point m x y = some q) (hpl : q.player = p.player) :
    bishop_legal m p x y ≠ some true := by
  by_cases hg : (x - p.x).natAbs = (y - p.y).natAbs
  · by_cases hne : (x = p.x ∧ y = p.y)
    · obtain ⟨h1, h2⟩ := hne
      rw [h1, h2, bishop_legal_self]
      simp
    · rw [bishop_legal_eq hg hne, blocked_or_final_friendly hq hpl]
      simp
  · unfold bishop_legal
    rw [if_pos hg]
    simp

/-- C4: a rook, bishop or queen move is accepted only when every square
strictly between source and destination is empty; and for every piece
kind, a move onto a square occupied by a friendly piece is never accepted
(so a rook at (1,1) behind a friendly pawn at (1,2) has no legal move up
that file, as the witness instantiates). -/
theorem sliding_block_and_friendly :
    (∀ (m : Model) (p : Piece) (x y : Int),
      (p.name = Name.rock ∨ p.name = Name.bishop ∨ p.name = Name.queen) →
      is_inside x y = true →
      is_legal_move m p x y = some true →
      ∀ c : Int × Int, between_strict (p.x, p.y) (x, y) c = true →
        get_point m c.1 c.2 = none) ∧
    (∀ (m : Model) (p : Piece) (x y : Int) (q : Piece),
      get_point m x y = some q → q.player = p.player →
      is_legal_move m p x y ≠ some true) := by
  constructor
  · intro m p x y hname _ h c hc
    unfold is_legal_move at h
    rcases hname with hn | hn | hn <;> rw [hn] at h
    · exact rock_between_empty h c hc
    · exact bishop_between_empty h c hc
    · rcases hr : rock_legal m p x y with _ | b
      · rw [hr] at h
        simp at h
      · rw [hr] at h
        cases b
        · exact bishop_between_empty h c hc
        · exact rock_between_empty hr c hc
  · intro m p x y q hq hpl h
    unfold is_legal_move at h
    split at h
    · -- king
      split at h
      · simp at h
      · rw [Option.some_inj, blocked_or_final_friendly hq hpl] at h
        exact Bool.false_ne_true h
    · -- queen
      rcases hr : rock_legal m p x y with _ | b
      · rw [hr] at h
        exact Option.noConfusion h
      · rw [hr] at h
        cases b
        · exact bishop_legal_not_true_friendly hq hpl h
        · exact rock_legal_not_true_friendly hq hpl hr
    · exact rock_legal_not_true_friendly hq hpl h
    · exact bishop_legal_not_true_friendly hq hpl h
    · -- knight
      split at h
      · rw [Option.some_inj, blocked_or_final_friendly hq hpl] at h
        exact Bool.false_ne_true h
      · simp at h
    · -- pawn
      rw [Option.some_inj] at h
      simp only [pawn_legal] at h
      split at h
      · rw [hq] at h
        simp at h
      · split at h
        · rw [hq] at h
          simp at h
        · split at h
          · rw [hq] at h
            simp [hpl] at h
          · simp at h

/-- C4 witness: the rook on (8,8) of the mate position legally reaches
(8,1), so the strictly-between square (8,5) is empty; on the standard
board the rook at (1,1) cannot move onto its own knight at (2,1), and its
move to (1,3) behind the friendly pawn at (1,2) is rejected. -/
theorem sliding_block_and_friendly_witness :
    get_point wmate 8 5 = none ∧
    is_legal_move standard_model
      { name := Name.rock, player := 0, x := 1, y := 1, pid := 0 } 2 1 ≠ some true ∧
    is_legal_move standard_model
      { name := Name.rock, player := 0, x := 1, y := 1, pid := 0 } 1 3 = some false :=
  ⟨sliding_block_and_friendly.1 wmate
      { name := Name.rock, player := 0, x := 8, y := 8, pid := 1 } 8 1
      (Or.inl rfl) (by decide) (by decide) (8, 5) (by decide),
   sliding_block_and_friendly.2 standard_model
      { name := Name.rock, player := 0, x := 1, y := 1, pid := 0 } 2 1
      { name := Name.knight, player := 0, x := 2, y := 1, pid := 4 }
      (by decide) (by decide),
   by decide⟩

/-- C5: pawn legality — the single advance is accepted exactly when the
destination is empty; for an in-board destination the double advance is
accepted exactly when the pawn is on its start rank (y=2 for the +1
forward direction of player 0, y=7 otherwise) and both the intermediate
and the destination squares are empty; a diagonal step is accepted
exactly when the destination holds an enemy piece; and any offset outside
the pawn's movement pattern is rejected. -/
theorem pawn_legal_spec (m : Model) (p : Piece) (x y : Int)
    (hname : p.name = Name.pawn) (hin : is_inside x y = true) :
    (x = p.x ∧ y = p.y + pawn_move_modifier p.player →
      is_legal_move m p x y = some ((get_point m x y).isNone)) ∧
    (x = p.x ∧ y = p.y + 2 * pawn_move_modifier p.player →
      (is_legal_move m p x y = some true ↔
        p.y = (if pawn_move_modifier p.player = 1 then 2 else 7) ∧
        get_point m x (p.y + pawn_move_modifier p.player) = none ∧
        get_point m x y = none)) ∧
    ((x - p.x).natAbs = 1 ∧ y = p.y + pawn_move_modifier p.player →
      (is_legal_move m p x y = some true ↔
        ∃ q, get_point m x y = some q ∧ q.player ≠ p.player)) ∧
    ((x - p.x, y - p.y) ∉ movement Name.pawn p.player →
      is_legal_move m p x y = some false) := by
  have hleg : is_legal_move m p x y = some (pawn_legal m p x y) := by
    unfold is_legal_move
    rw [hname]
  rw [is_inside_iff] at hin
  have hmveq : movement Name.pawn p.player =
      [(0, pawn_move_modifier p.player), (0, 2 * pawn_move_modifier p.player),
       (-1, pawn_move_modifier p.player), (1, pawn_move_modifier p.player)] := rfl
  rcases pawn_move_modifier_cases p.player with hm | hm
  · refine ⟨?_, ?_, ?_, ?_⟩
    · rintro ⟨rfl, rfl⟩
      rw [hleg]
      unfold pawn_legal
      rw [hm, if_pos (by omega)]
    · rintro ⟨rfl, rfl⟩
      rw [hleg]
      unfold pawn_legal
      rw [hm, if_neg (by omega),
        show (if (1 : Int) = 1 then (2 : Int) else 7) = 2 by norm_num]
      by_cases hrank : p.y = 2 ∨ p.y = 7
      · rw [if_pos ⟨rfl, hrank, by omega⟩]
        simp only [Option.some_inj, Bool.and_eq_true, Option.isNone_iff_eq_none]
        constructor
        · rintro ⟨h1, h2⟩
          exact ⟨by omega, by simpa using h1, h2⟩
        · rintro ⟨h1, h2, h3⟩
          exact ⟨by simpa using h2, h3⟩
      · rw [if_neg (by tauto), if_neg (by omega)]
        constructor
        · intro h
          simp at h
        · rintro ⟨h1, h2, h3⟩
          exact absurd (Or.inl (by omega)) hrank
    · rintro ⟨h1, rfl⟩
      rw [hleg]
      unfold pawn_legal
      rw [hm, if_neg (by omega), if_neg (by omega), if_pos (by omega)]
      rcases hgp : get_point m x (p.y + 1) with _ | q2 <;>
        simp [hgp, bne_iff_ne]
    · intro hmv
      rw [hmveq, hm] at hmv
      simp only [List.mem_cons, List.not_mem_nil, Prod.mk.injEq, or_false] at hmv
      rw [hleg]
      unfold pawn_legal
      rw [hm, if_neg (by omega), if_neg (by omega), if_neg (by omega)]
  · refine ⟨?_, ?_, ?_, ?_⟩
    · rintro ⟨rfl, rfl⟩
      rw [hleg]
      unfold pawn_legal
      rw [hm, if_pos (by omega)]
    · rintro ⟨rfl, rfl⟩
      rw [hleg]
      unfold pawn_legal
      rw [hm, if_neg (by omega),
        show (if (-1 : Int) = 1 then (2 : Int) else 7) = 7 by norm_num]
      by_cases hrank : p.y = 2 ∨ p.y = 7
      · rw [if_pos ⟨rfl, hrank, by omega⟩]
        simp only [Option.some_inj, Bool.and_eq_true, Option.isNone_iff_eq_none]
        constructor
        · rintro ⟨h1, h2⟩
          exact ⟨by omega, by simpa using h1, h2⟩
        · rintro ⟨h1, h2, h3⟩
          exact ⟨by simpa using h2, h3⟩
      · rw [if_neg (by tauto), if_neg (by omega)]
        constructor
        · intro h
          simp at h
        · rintro ⟨h1, h2, h3⟩
          exact absurd (Or.inr (by omega)) hrank
    · rintro ⟨h1, rfl⟩
      rw [hleg]
      unfold pawn_legal
      rw [hm, if_neg (by omega), if_neg (by omega), if_pos (by omega)]
      rcases hgp : get_point m x (p.y + -1) with _ | q2 <;>
        simp [hgp, bne_iff_ne]
    · intro hmv
      rw [hmveq, hm] at hmv
      simp only [List.mem_cons, List.not_mem_nil, Prod.mk.injEq, or_false] at hmv
      rw [hleg]
      unfold pawn_legal
      rw [hm, if_neg (by omega), if_neg (by omega), if_neg (by omega)]

/-- C5 witness: the a2 pawn of the standard board advances one square
exactly when a3 is empty, and a knight-shaped pawn offset is rejected. -/
theorem pawn_legal_spec_witness :
    is_legal_move standard_model
      { name := Name.pawn, player := 0, x := 1, y := 2, pid := 8 } 1 3 =
      some ((get_point standard_model 1 3).isNone) ∧
    is_legal_move standard_model
      { name := Name.pawn, player := 0, x := 1, y := 2, pid := 8 } 3 3 =
      some false :=
  ⟨(pawn_legal_spec standard_model
      { name := Name.pawn, player := 0, x := 1, y := 2, pid := 8 } 1 3
      rfl (by decide)).1 (by decide),
   (pawn_legal_spec standard_model
      { name := Name.pawn, player := 0, x := 1, y := 2, pid := 8 } 3 3
      rfl (by decide)).2.2.2 (by decide)⟩

/-! ### Movement-pattern membership helpers -/

theorem mem_rockMovement_of {dx dy : Int}
    (h : (dx = 0 ∧ dy ≠ 0 ∧ dy.natAbs ≤ 8) ∨ (dy = 0 ∧ dx ≠ 0 ∧ dx.natAbs ≤ 8)) :
    (dx, dy) ∈ rockMovement := by
  rcases h with ⟨rfl, h2, h3⟩ | ⟨rfl, h2, h3⟩
  · have hb : -8 ≤ dy ∧ dy ≤ 8 := by omega
    obtain ⟨hb1, hb2⟩ := hb
    interval_cases dy <;> first | omega | decide
  · have hb : -8 ≤ dx ∧ dx ≤ 8 := by omega
    obtain ⟨hb1, hb2⟩ := hb
    interval_cases dx <;> first | omega | decide

theorem mem_bishopMovement_of {dx dy : Int} (h1 : dx.natAbs = dy.natAbs)
    (h2 : dx ≠ 0) (h3 : dx.natAbs ≤ 8) : (dx, dy) ∈ bishopMovement := by
  have hb : -8 ≤ dx ∧ dx ≤ 8 := by omega
  obtain ⟨hb1, hb2⟩ := hb
  have hd : dy = dx ∨ dy = -dx := by omega
  rcases hd with rfl | rfl
  · interval_cases dy <;> first | omega | decide
  · interval_cases dx <;> first | omega | decide

theorem mem_knightMovement_of {dx dy : Int} (pl : Int)
    (h : (dx.natAbs = 2 ∧ dy.natAbs = 1) ∨ (dx.natAbs = 1 ∧ dy.natAbs = 2)) :
    (dx, dy) ∈ movement Name.knight pl := by
  show (dx, dy) ∈ _rotate [(2, 1), (1, 2)]
  have hb : -2 ≤ dx ∧ dx ≤ 2 ∧ -2 ≤ dy ∧ dy ≤ 2 := by omega
  obtain ⟨hb1, hb2, hb3, hb4⟩ := hb
  interval_cases dx <;> interval_cases dy <;> first | omega | decide

theorem mem_kingMovement_of {dx dy : Int} (pl : Int)
    (h1 : dx.natAbs ≤ 1) (h2 : dy.natAbs ≤ 1) (h3 : ¬(dx = 0 ∧ dy = 0)) :
    (dx, dy) ∈ movement Name.king pl := by
  show (dx, dy) ∈ _rotate [(1, 1), (1, 0)]
  have hb1 : -1 ≤ dx ∧ dx ≤ 1 := by omega
  have hb2 : -1 ≤ dy ∧ dy ≤ 1 := by omega
  obtain ⟨hb3, hb4⟩ := hb1
  obtain ⟨hb5, hb6⟩ := hb2
  interval_cases dx <;> interval_cases dy <;> first | omega | decide

/-- C6 counterexample: the standard board's rook on (1,1) asked about the
in-board destination (1,1) itself — an offset outside its movement
pattern — raises ValueError (modelled none) instead of returning false. -/
theorem nonpattern_illegal_cex :
    is_legal_move standard_model
      { name := Name.rock, player := 0, x := 1, y := 1, pid := 0 } 1 1 = none ∧
    (((1 : Int) - 1, (1 : Int) - 1) ∉ movement Name.rock 0) ∧
    is_inside 1 1 = true := by
  refine ⟨by decide, by decide, by decide⟩

/-- C6 (amended): for every piece on the board and every in-board
destination other than the piece's own square, a destination whose offset
is not in the movement pattern is rejected with false; at the piece's own
square (offset (0,0), never in any pattern) the rook, bishop and queen
branches instead raise ValueError. -/
theorem nonpattern_illegal (m : Model) (p : Piece) (x y : Int)
    (hpin : is_inside p.x p.y = true) (hin : is_inside x y = true)
    (hne : ¬(x = p.x ∧ y = p.y))
    (hmv : (x - p.x, y - p.y) ∉ movement p.name p.player) :
    is_legal_move m p x y = some false := by
  rw [is_inside_iff] at hpin hin
  have hrockcond : (x - p.x, y - p.y) ∉ rockMovement → x ≠ p.x ∧ y ≠ p.y := by
    intro hr
    by_contra hcon
    rw [not_and_or] at hcon
    push_neg at hcon
    rcases hcon with hcx | hcy
    · exact hr (mem_rockMovement_of (Or.inl ⟨by omega, by omega, by omega⟩))
    · exact hr (mem_rockMovement_of (Or.inr ⟨by omega, by omega, by omega⟩))
  have hbishcond : (x - p.x, y - p.y) ∉ bishopMovement →
      (x - p.x).natAbs ≠ (y - p.y).natAbs := by
    intro hb hcon
    have hdx : x - p.x ≠ 0 := by omega
    exact hb (mem_bishopMovement_of hcon hdx (by omega))
  unfold is_legal_move
  split
  · -- king
    rename_i heq
    rw [heq] at hmv
    rw [if_pos ?_]
    by_contra hcon
    push_neg at hcon
    exact hmv (mem_kingMovement_of p.player (by omega) (by omega) (by omega))
  · -- queen
    rename_i heq
    rw [heq] at hmv
    have hmv2 : (x - p.x, y - p.y) ∉ rockMovement ∧
        (x - p.x, y - p.y) ∉ bishopMovement := by
      constructor <;> intro hcc <;>
        exact hmv (by
          show _ ∈ rockMovement ++ bishopMovement
          rw [List.mem_append]
          first
            | exact Or.inl hcc
            | exact Or.inr hcc)
    have hrock : rock_legal m p x y = some false := by
      unfold rock_legal
      rw [if_pos (hrockcond hmv2.1)]
    have hbish : bishop_legal m p x y = some false := by
      unfold bishop_legal
      rw [if_pos (hbishcond hmv2.2)]
    simp only [hrock, hbish]
  · -- rock
    rename_i heq
    rw [heq] at hmv
    unfold rock_legal
    rw [if_pos (hrockcond hmv)]
  · -- bishop
    rename_i heq
    rw [heq] at hmv
    unfold bishop_legal
    rw [if_pos (hbishcond hmv)]
  · -- knight
    rename_i heq
    rw [heq] at hmv
    rw [if_neg ?_]
    intro hcon
    exact hmv (mem_knightMovement_of p.player hcon)
  · -- pawn
    rename_i heq
    rw [heq] at hmv
    have hmveq : movement Name.pawn p.player =
        [(0, pawn_move_modifier p.player), (0, 2 * pawn_move_modifier p.player),
         (-1, pawn_move_modifier p.player), (1, pawn_move_modifier p.player)] := rfl
    rw [hmveq] at hmv
    simp only [List.mem_cons, List.not_mem_nil, Prod.mk.injEq, or_false] at hmv
    rcases pawn_move_modifier_cases p.player with hm | hm <;>
      · rw [Option.some_inj]
        unfold pawn_legal
        rw [hm] at hmv ⊢
        rw [if_neg (by omega), if_neg (by omega), if_neg (by omega)]

/-- C6 witness: the standard rook on (1,1) is refused the knight-shaped
destination (2,3). -/
theorem nonpattern_illegal_witness :
    is_legal_move standard_model
      { name := Name.rock, player := 0, x := 1, y := 1, pid := 0 } 2 3 =
      some false :=
  nonpattern_illegal standard_model
    { name := Name.rock, player := 0, x := 1, y := 1, pid := 0 } 2 3
    (by decide) (by decide) (by decide) (by decide)

/-- C7 counterexample: the rook's movement table contains the offset
(0,8) of magnitude 8, which the claimed magnitude-1..7 table lacks. -/
theorem movement_pattern_table_cex :
    ((0 : Int), (8 : Int)) ∈ movement Name.rock 0 ∧
    (((0 : Int), (8 : Int)) ∉ line_offsets 7) := by
  decide

/-- C7 (amended): the movement tables equal the spec's tables except that
the rook and bishop magnitudes run 1..8 rather than 1..7 (the queen being
their concatenation, and the pawn table using forward direction +1 for
player 0 and -1 for every other player). -/
theorem movement_pattern_table (pl : Int) :
    (movement Name.rock pl).toFinset = (line_offsets 8).toFinset ∧
    (movement Name.bishop pl).toFinset = (diag_offsets 8).toFinset ∧
    (movement Name.knight pl).toFinset = knight_offsets.toFinset ∧
    (movement Name.king pl).toFinset = king_offsets.toFinset ∧
    movement Name.queen pl = movement Name.rock pl ++ movement Name.bishop pl ∧
    (pl = 0 → (movement Name.pawn pl).toFinset = (pawn_offsets 1).toFinset) ∧
    (pl ≠ 0 → (movement Name.pawn pl).toFinset = (pawn_offsets (-1)).toFinset) := by
  refine ⟨?_, ?_, ?_, ?_, rfl, ?_, ?_⟩
  · show rockMovement.toFinset = _
    decide
  · show bishopMovement.toFinset = _
    decide
  · show (_rotate [(2, 1), (1, 2)]).toFinset = _
    decide
  · show (_rotate [(1, 1), (1, 0)]).toFinset = _
    decide
  · rintro rfl
    decide
  · intro h
    have hm : pawn_move_modifier pl = -1 := by
      unfold pawn_move_modifier
      rw [if_neg (by simpa using h)]
    show ([(0, pawn_move_modifier pl), (0, 2 * pawn_move_modifier pl),
      (-1, pawn_move_modifier pl), (1, pawn_move_modifier pl)]).toFinset = _
    rw [hm]
    decide

/-- C7 witness: at player 1 the rook table matches the magnitude-1..8
table and the pawn moves with forward direction -1. -/
theorem movement_pattern_table_witness :
    (movement Name.rock 1).toFinset = (line_offsets 8).toFinset ∧
    (movement Name.pawn 1).toFinset = (pawn_offsets (-1)).toFinset :=
  ⟨(movement_pattern_table 1).1,
   (movement_pattern_table 1).2.2.2.2.2.2 (by decide)⟩

/-- C8: the promotion scan transforms at most one piece: with no pawn on
rank 1 or 8 it is a no-op, and otherwise exactly one slot holding such a
pawn is overwritten in place with the same piece renamed to queen (its
movement pattern, being derived from the name, is thereby the queen's),
all other slots and the history untouched. -/
theorem pawn_transform_spec (m : Model) :
    ((∀ p ∈ get_pieces m, ¬(p.name = Name.pawn ∧ (p.y = 1 ∨ p.y = 8))) →
      pawn_transform m = m) ∧
    ((∃ p ∈ get_pieces m, p.name = Name.pawn ∧ (p.y = 1 ∨ p.y = 8)) →
      ∃ i : Nat, i < 64 ∧ ∃ p : Piece, m.chess_map.getD i none = some p ∧
        p.name = Name.pawn ∧ (p.y = 1 ∨ p.y = 8) ∧
        pawn_transform m =
          { m with chess_map := m.chess_map.set i
                      (some { p with name := Name.queen }) }) := by
  constructor
  · intro h
    unfold pawn_transform
    rw [List.find?_eq_none.mpr ?_]
    intro i hi hcon
    rcases hq : m.chess_map.getD i none with _ | q
    · simp only [hq] at hcon
      exact Bool.false_ne_true hcon
    · have hmem : q ∈ get_pieces m :=
        mem_get_pieces.mpr ⟨i, List.mem_range.mp hi, hq⟩
      simp only [hq, Bool.and_eq_true, beq_iff_eq, Bool.or_eq_true] at hcon
      exact h q hmem ⟨hcon.1, by simpa using hcon.2⟩
  · rintro ⟨p0, hp0mem, hp0n, hp0y⟩
    obtain ⟨j, hj, hslot⟩ := mem_get_pieces.mp hp0mem
    have hpredj : (match m.chess_map.getD j none with
        | some p => p.name == Name.pawn && (p.y == 1 || p.y == 8)
        | none => false) = true := by
      rw [hslot]
      simp only [hp0n]
      rcases hp0y with h1 | h1 <;> simp [h1]
    rcases hf : (List.range 64).find? (fun i =>
        match m.chess_map.getD i none with
        | some p => p.name == Name.pawn && (p.y == 1 || p.y == 8)
        | none => false) with _ | i
    · exact absurd hpredj (List.find?_eq_none.mp hf j (List.mem_range.mpr hj))
    · have hpred := List.find?_some hf
      have hi := List.mem_range.mp (List.mem_of_find?_eq_some hf)
      rcases hq : m.chess_map.getD i none with _ | p
      · rw [hq] at hpred
        simp at hpred
      · rw [hq] at hpred
        simp only [Bool.and_eq_true, beq_iff_eq, Bool.or_eq_true] at hpred
        refine ⟨i, hi, p, hq, hpred.1, by simpa using hpred.2, ?_⟩
        unfold pawn_transform
        rw [hf]
        dsimp only
        rw [hq]
        rfl

/-- C8 witness: promotion is a no-op on the standard opening board, and
on the promotion position it rewrites exactly the slot of the pawn on
(3,8) to a queen. -/
theorem pawn_transform_spec_witness :
    pawn_transform standard_model = standard_model ∧
    (∃ i : Nat, i < 64 ∧ ∃ p : Piece, pmod.chess_map.getD i none = some p ∧
      p.name = Name.pawn ∧ (p.y = 1 ∨ p.y = 8) ∧
      pawn_transform pmod =
        { pmod with chess_map := pmod.chess_map.set i
                      (some { p with name := Name.queen }) }) :=
  ⟨(pawn_transform_spec standard_model).1 (by decide),
   (pawn_transform_spec pmod).2
     ⟨{ name := Name.pawn, player := 0, x := 3, y := 8, pid := 0 },
      by decide, by decide⟩⟩

/-- C9: the undo contract violation does fail loudly (popping an empty
history raises IndexError, crash flag, state unchanged), but out-of-range
grid access does not: get_point(1, 9) computes index 8, raises nothing,
and silently returns the very piece stored for the in-range square (2,1)
of the standard board. -/
theorem contract_violation_behavior :
    (undo_move empty_model).2 = true ∧
    (undo_move empty_model).1 = empty_model ∧
    get_point_raises standard_model 1 9 = false ∧
    get_point standard_model 1 9 = get_point standard_model 2 1 ∧
    (get_point standard_model 2 1).isSome = true := by
  decide

/-- C10: move_unit on an empty source square crashes (AttributeError on
None.set_pos) only after the history entry recording the destination
occupant has been appended and both grid slots have been cleared, so the
model is left mutated rather than restored. -/
theorem move_unit_empty_source {m : Model} {a b : Int × Int}
    (hl : m.chess_map.length = 64)
    (ha : is_inside a.1 a.2 = true) (hb : is_inside b.1 b.2 = true)
    (hsrc : get_point m a.1 a.2 = none) :
    (move_unit m a b).2 = true ∧
    (move_unit m a b).1.moves = m.moves ++ [(get_point m b.1 b.2, a, b)] ∧
    get_point (move_unit m a b).1 a.1 a.2 = none ∧
    get_point (move_unit m a b).1 b.1 b.2 = none := by
  obtain ⟨ax, ay⟩ := a
  obtain ⟨bx, byy⟩ := b
  simp only at ha hb hsrc ⊢
  have hna := convert_toNat_lt ha
  have hnb := convert_toNat_lt hb
  unfold move_unit
  simp only [hsrc]
  rw [set_point_inboard (by simpa using hl) hb]
  simp only [Model.chess_map, Model.moves]
  rw [set_point_inboard (by simp [hl]) ha]
  simp only [Model.chess_map, Model.moves]
  refine ⟨by trivial, by trivial, ?_, ?_⟩
  · rw [get_point_inboard (by simp [hl]) ha]
    simp only [Model.chess_map]
    rw [getD_set_self (by simp [hl]; omega)]
  · rw [get_point_inboard (by simp [hl]) hb]
    simp only [Model.chess_map]
    rcases eq_or_ne (_xy_convert ax ay).toNat (_xy_convert bx byy).toNat with he | hne
    · rw [he, getD_set_self (by simp [hl]; omega)]
    · rw [getD_set_ne hne, getD_set_self (by omega)]

/-- C10 witness: moving from the empty square (4,4) of the standard board
crashes after appending the history entry and clearing both slots. -/
theorem move_unit_empty_source_witness :
    (move_unit standard_model ((4 : Int), (4 : Int)) (5, 5)).2 = true ∧
    (move_unit standard_model ((4 : Int), (4 : Int)) (5, 5)).1.moves =
      standard_model.moves ++
        [(get_point standard_model 5 5, (4, 4), (5, 5))] ∧
    get_point (move_unit standard_model ((4 : Int), (4 : Int)) (5, 5)).1 4 4 = none ∧
    get_point (move_unit standard_model ((4 : Int), (4 : Int)) (5, 5)).1 5 5 = none :=
  move_unit_empty_source (by decide) (by decide) (by decide) (by decide)
